import Mathlib

/-!
Shallow embedding of the data-normalization and strategy-evaluation engine of
streamlit_app.py (Auto-Trade repository).

Modeling conventions:

* Prices and volumes are modeled as `Option ℚ`: `none` stands for a float NaN
  (missing or unparseable data), `some q` for a finite float value.
  Floating-point rounding is not modeled; the two places where the Python
  code can produce an infinity from finite data (the ratio `rs = gain/loss`
  in the RSI strategy and the ratio `cum_pv/cum_vol` in the VWAP strategy)
  are modeled by the dedicated type `DivVal`, which mirrors IEEE-754
  division of finite values including signed infinities and NaN.
* A pandas DataFrame is modeled as a row count together with an ordered
  association list of named columns (`Table`).  Column assignment
  `df[name] = values` overwrites an existing column in place or appends a
  new one at the end, exactly as pandas does.  Tables with duplicate column
  labels behave non-columnarly in pandas (subscripting returns a frame and
  raises); theorems about normalization therefore carry a `Nodup`
  hypothesis on the processed column names where that matters.
* `pd.to_numeric(-, errors="coerce")` is modeled as the identity on cells:
  cell values in the model are the already-coerced numeric values.
  `pd.to_datetime` is likewise modeled as the identity on the chosen
  column's cells (timestamp parsing is assumed to succeed; its failure
  behavior is outside the claims treated here).
-/

namespace AutoTrade

/-- Value of one cell of a dataframe column. `none` models a float NaN. -/
abbrev Cell := Option ℚ

/-- Pandas comparison `a > b` on float cells: any comparison with NaN is false. -/
def cellGt : Cell → Cell → Bool
  | some a, some b => decide (b < a)
  | _, _ => false

/-- Pandas comparison `a < b` on float cells: any comparison with NaN is false. -/
def cellLt : Cell → Cell → Bool
  | some a, some b => decide (a < b)
  | _, _ => false

/-- Cellwise subtraction; NaN propagates. -/
def cellSub : Cell → Cell → Cell
  | some a, some b => some (a - b)
  | _, _ => none

/-- Cellwise multiplication of finite cells; NaN propagates. -/
def cellMul : Cell → Cell → Cell
  | some a, some b => some (a * b)
  | _, _ => none

/-- Cellwise addition; NaN propagates. -/
def cellAdd : Cell → Cell → Cell
  | some a, some b => some (a + b)
  | _, _ => none

/-- Result of an IEEE-754 division of two possibly-NaN finite values: the
quotient can be NaN, a signed infinity, or finite.  This models the exact
float semantics of `x / y` at the two division sites of the source. -/
inductive DivVal where
  | nan
  | posInf
  | negInf
  | fin (q : ℚ)
  deriving DecidableEq

/-- IEEE-754 division of two cells (finite-or-NaN values): division by zero
of a nonzero numerator gives a signed infinity, `0/0` and any NaN operand
give NaN.  (The model has no negative zero; pandas zeros arising from exact
arithmetic on market data are positive zeros.) -/
def fdiv : Cell → Cell → DivVal
  | some a, some b =>
      if b = 0 then
        if 0 < a then .posInf else if a < 0 then .negInf else .nan
      else .fin (a / b)
  | _, _ => .nan

/-- Comparison `c > d` of a cell against a division result, IEEE style. -/
def cGtD : Cell → DivVal → Bool
  | some a, .fin b => decide (b < a)
  | some _, .negInf => true
  | _, _ => false

/-- Comparison `c < d` of a cell against a division result, IEEE style. -/
def cLtD : Cell → DivVal → Bool
  | some a, .fin b => decide (a < b)
  | some _, .posInf => true
  | _, _ => false

/-- Comparison `d < q` of a division result against a finite scalar. -/
def dLtC : DivVal → ℚ → Bool
  | .fin a, c => decide (a < c)
  | .negInf, _ => true
  | _, _ => false

/-- Comparison `d > q` of a division result against a finite scalar. -/
def dGtC : DivVal → ℚ → Bool
  | .fin a, c => decide (c < a)
  | .posInf, _ => true
  | _, _ => false

/-- Storage of a division result in a `Cell`-valued column.  Infinities are
outside the `Cell` domain and collapse to `none`; no claim treated here
reads a stored infinite value (the signal computations below compare the
uncollapsed `DivVal`s, exactly as the Python code compares the float
column that still carries the infinities). -/
def dToCell : DivVal → Cell
  | .fin q => some q
  | _ => none

/-- The RSI transform `100 - 100/(1 + rs)` evaluated on a division result
with IEEE-754 semantics:
an infinite `rs` gives `100 - 100/∞ = 100`; a finite `rs` with `1+rs = 0`
gives `100 - 100/0 = -∞`; NaN propagates. -/
def rsiOfRs : DivVal → DivVal
  | .nan => .nan
  | .posInf => .fin 100
  | .negInf => .fin 100
  | .fin q => if 1 + q = 0 then .negInf else .fin (100 - 100 / (1 + q))

/-- Index-aligned series comparison `a > b` (cellwise, false on NaN).
Positions missing from `b` compare as NaN, matching pandas index alignment. -/
def sGt (a b : List Cell) : List Bool :=
  (List.range a.length).map fun i => cellGt (a.getD i none) (b.getD i none)

/-- Index-aligned series comparison `a < b`. -/
def sLt (a b : List Cell) : List Bool :=
  (List.range a.length).map fun i => cellLt (a.getD i none) (b.getD i none)

/-- Index-aligned series subtraction. -/
def sSub (a b : List Cell) : List Cell :=
  (List.range a.length).map fun i => cellSub (a.getD i none) (b.getD i none)

/-- Index-aligned series multiplication. -/
def sMul (a b : List Cell) : List Cell :=
  (List.range a.length).map fun i => cellMul (a.getD i none) (b.getD i none)

/-- Index-aligned series addition. -/
def sAdd (a b : List Cell) : List Cell :=
  (List.range a.length).map fun i => cellAdd (a.getD i none) (b.getD i none)

/-- Scalar multiple of a series, `c * xs` (NaN preserved). -/
def sScale (c : ℚ) (xs : List Cell) : List Cell :=
  xs.map (Option.map (fun x => c * x))

/-- Trailing window of length `n` ending at row `i` (rows `i-n+1 .. i`). -/
def windowAt (xs : List Cell) (n i : ℕ) : List Cell :=
  (xs.take (i + 1)).drop (i + 1 - n)

/-- All values of a window when none of its cells is NaN, else `none`. -/
def allSome : List Cell → Option (List ℚ)
  | [] => some []
  | none :: _ => none
  | some q :: t => (allSome t).map (q :: ·)

/-- Pandas `rolling(n)` application: the statistic at row `i` is defined
only when `n ≥ 1`, at least `n` rows exist up to `i`, and the trailing
window of length `n` has no NaN (`min_periods` defaults to the window
size); otherwise the result is NaN.  `f` receives the window's values and
may itself declare the result undefined (used for the sample standard
deviation of a single observation). -/
def rollingApply (f : List ℚ → Option ℚ) (n : ℕ) (xs : List Cell) : List Cell :=
  (List.range xs.length).map fun i =>
    if 1 ≤ n ∧ n ≤ i + 1 then
      match allSome (windowAt xs n i) with
      | some vals => f vals
      | none => none
    else none

/-- Trailing arithmetic mean over a window of length `n` (`rolling(n).mean()`). -/
def rollingMean (n : ℕ) (xs : List Cell) : List Cell :=
  rollingApply (fun l => some (l.sum / (l.length : ℚ))) n xs

/-- Maximum of a nonempty list of rationals (`0` on the empty list, which
the rolling guard `n ≥ 1` makes unreachable). -/
def listMax : List ℚ → ℚ
  | [] => 0
  | h :: t => t.foldl max h

/-- Minimum of a nonempty list of rationals. -/
def listMin : List ℚ → ℚ
  | [] => 0
  | h :: t => t.foldl min h

/-- Trailing maximum over a window of length `n` (`rolling(n).max()`). -/
def rollingMax (n : ℕ) (xs : List Cell) : List Cell :=
  rollingApply (fun l => some (listMax l)) n xs

/-- Trailing minimum over a window of length `n` (`rolling(n).min()`). -/
def rollingMin (n : ℕ) (xs : List Cell) : List Cell :=
  rollingApply (fun l => some (listMin l)) n xs

/-- Sample variance (ddof = 1) of a list of rationals. -/
def sampleVar (l : List ℚ) : ℚ :=
  ((l.map fun x => (x - l.sum / (l.length : ℚ)) ^ 2).sum) / ((l.length : ℚ) - 1)

/-- Trailing sample standard deviation (`rolling(n).std()`, ddof = 1).
The square root is irrational in general, so the standard-deviation values
are parameterized by a square-root function `sq`; no claim treated here
depends on the numeric value of a standard deviation, only on where it is
defined.  A single-observation window has variance `0/0 = NaN` in pandas,
modeled by returning `none` when the window holds at most one value. -/
def rollingStd (sq : ℚ → ℚ) (n : ℕ) (xs : List Cell) : List Cell :=
  rollingApply (fun l => if l.length ≤ 1 then none else some (sq (sampleVar l))) n xs

/-- Pandas `diff(n)`: value at row `i` is `x i - x (i-n)`, NaN when fewer
than `n` prior rows exist or either operand is NaN. -/
def diffSeries (n : ℕ) (xs : List Cell) : List Cell :=
  (List.range xs.length).map fun i =>
    if n ≤ i then cellSub (xs.getD i none) (xs.getD (i - n) none) else none

/-- Pandas `ewm(span).mean()` with the default `adjust=True`,
`ignore_na=False`: the value at row `i` is the weighted mean of the
non-NaN observations up to `i` with weights `(1-α)^(i-j)`, `α = 2/(span+1)`;
NaN when the weights of the non-NaN observations sum to zero (in particular
when no observation up to `i` is defined). -/
def ewmMean (span : ℕ) (xs : List Cell) : List Cell :=
  let β : ℚ := 1 - 2 / ((span : ℚ) + 1)
  (List.range xs.length).map fun i =>
    let terms := (List.range (i + 1)).filterMap fun j =>
      (xs.getD j none).map fun v => (β ^ (i - j) * v, β ^ (i - j))
    let den := (terms.map Prod.snd).sum
    if den = 0 then none else some ((terms.map Prod.fst).sum / den)

/-- Pandas `cumsum()` with the default `skipna=True`: a NaN row stays NaN
in the output but does not poison later rows; a defined row holds the sum
of all defined values up to and including it. -/
def cumsum (xs : List Cell) : List Cell :=
  (List.range xs.length).map fun i =>
    match xs.getD i none with
    | none => none
    | some _ => some ((xs.take (i + 1)).filterMap id).sum

/-- Pandas boolean-mask assignment `s.loc[mask] = x` on a column `vals`:
rows where the mask holds become `x`, all other rows keep their value. -/
def locSet (vals : List Cell) (mask : List Bool) (x : ℚ) : List Cell :=
  (List.range vals.length).map fun i =>
    if mask.getD i false then some x else vals.getD i none

/-- Conversion of a comparison result to an integer, `bool.astype(int)`. -/
def boolToQ (b : Bool) : ℚ := if b then 1 else 0

/-- The signal pattern `(a > b).astype(int) - (a < b).astype(int)`. -/
def signalFromCmp (a b : List Cell) : List Cell :=
  (List.range a.length).map fun i =>
    some (boolToQ (cellGt (a.getD i none) (b.getD i none)) -
          boolToQ (cellLt (a.getD i none) (b.getD i none)))

/-- A pandas DataFrame: a row count and an ordered association list of
named columns.  The row count is the length of the index; every column of
a well-formed frame has exactly that many cells. -/
structure Table where
  nrows : ℕ
  cols : List (String × List Cell)
  deriving DecidableEq

/-- Column lookup `df[name]` (first column with that label). -/
def Table.colD (df : Table) (name : String) : List Cell :=
  match df.cols.find? (fun p => p.1 == name) with
  | some p => p.2
  | none => []

/-- Column assignment `df[name] = vals`: overwrites an existing column in
place (keeping its position) or appends a new column at the end. -/
def Table.setCol (df : Table) (name : String) (vals : List Cell) : Table :=
  if df.cols.any (fun p => p.1 == name) then
    ⟨df.nrows, df.cols.map fun p => if p.1 == name then (name, vals) else p⟩
  else
    ⟨df.nrows, df.cols ++ [(name, vals)]⟩

/-- Well-formedness of a frame: pairwise distinct column labels and every
column of full height.  Frames with duplicate labels are not columnar in
pandas (subscripting them raises), so the claims below are stated for
well-formed frames. -/
def Table.WF (df : Table) : Prop :=
  (df.cols.map Prod.fst).Nodup ∧ ∀ p ∈ df.cols, p.2.length = df.nrows

/-- MA Crossover strategy (`strat_ma`): trailing means of close over the
fast and slow windows; signal defaults to 0, then rows with
`ma_fast > ma_slow` are set to +1 and rows with `ma_fast < ma_slow` to -1. -/
def strat_ma (df : Table) (fast slow : ℕ) : Table :=
  let close := df.colD "close"
  let ma_fast := rollingMean fast close
  let ma_slow := rollingMean slow close
  let df1 := (df.setCol "ma_fast" ma_fast).setCol "ma_slow" ma_slow
  let df2 := df1.setCol "signal" (List.replicate df1.nrows (some (0 : ℚ)))
  let df3 := df2.setCol "signal" (locSet (df2.colD "signal") (sGt ma_fast ma_slow) 1)
  df3.setCol "signal" (locSet (df3.colD "signal") (sLt ma_fast ma_slow) (-1))

/-- The RSI gain series: `delta.clip(lower=0).rolling(length).mean()`. -/
def gainSeries (close : List Cell) (length : ℕ) : List Cell :=
  rollingMean length ((diffSeries 1 close).map (Option.map fun d => max d 0))

/-- The RSI loss series: `-delta.clip(upper=0).rolling(length).mean()`
(the negation applies to the rolled mean). -/
def lossSeries (close : List Cell) (length : ℕ) : List Cell :=
  (rollingMean length ((diffSeries 1 close).map (Option.map fun d => min d 0))).map
    (Option.map fun m => -m)

/-- The ratio `rs = gain / loss`, with IEEE division semantics. -/
def rsSeries (close : List Cell) (length : ℕ) : List DivVal :=
  (List.range (gainSeries close length).length).map fun i =>
    fdiv ((gainSeries close length).getD i none) ((lossSeries close length).getD i none)

/-- The RSI indicator series `100 - 100/(1 + rs)`. -/
def rsiSeries (close : List Cell) (length : ℕ) : List DivVal :=
  (rsSeries close length).map rsiOfRs

/-- RSI strategy (`strat_rsi`).  The comparisons `rsi < 30` and `rsi > 70`
are evaluated on the uncollapsed division results, exactly as the Python
code compares the float column (which can carry infinities). -/
def strat_rsi (df : Table) (length : ℕ) : Table :=
  let close := df.colD "close"
  let rsi := rsiSeries close length
  let df1 := df.setCol "rsi" (rsi.map dToCell)
  let df2 := df1.setCol "signal" (List.replicate df1.nrows (some (0 : ℚ)))
  let df3 := df2.setCol "signal"
    (locSet (df2.colD "signal") (rsi.map fun d => dLtC d 30) 1)
  df3.setCol "signal" (locSet (df3.colD "signal") (rsi.map fun d => dGtC d 70) (-1))

/-- MACD strategy (`strat_macd`) with the fixed spans 12/26/9. -/
def strat_macd (df : Table) : Table :=
  let close := df.colD "close"
  let ema12 := ewmMean 12 close
  let ema26 := ewmMean 26 close
  let macd := sSub ema12 ema26
  let signal_line := ewmMean 9 macd
  let hist := sSub macd signal_line
  let df1 := ((((df.setCol "ema12" ema12).setCol "ema26" ema26).setCol "macd" macd).setCol
    "signal_line" signal_line).setCol "hist" hist
  df1.setCol "signal" (signalFromCmp macd signal_line)

/-- Bollinger Bands strategy (`strat_bbands`), parameterized by the
square-root function used for the standard deviation (see `rollingStd`). -/
def strat_bbands (sq : ℚ → ℚ) (df : Table) (length : ℕ) (mult : ℚ) : Table :=
  let close := df.colD "close"
  let ma := rollingMean length close
  let std := rollingStd sq length close
  let upper := sAdd ma (sScale mult std)
  let lower := sSub ma (sScale mult std)
  let df1 := (((df.setCol "ma" ma).setCol "std" std).setCol "upper" upper).setCol
    "lower" lower
  let df2 := df1.setCol "signal" (List.replicate df1.nrows (some (0 : ℚ)))
  let df3 := df2.setCol "signal" (locSet (df2.colD "signal") (sLt close lower) 1)
  df3.setCol "signal" (locSet (df3.colD "signal") (sGt close upper) (-1))

/-- Breakout strategy (`strat_breakout`): the rolling extrema include the
current row. -/
def strat_breakout (df : Table) (length : ℕ) : Table :=
  let close := df.colD "close"
  let recent_high := rollingMax length close
  let recent_low := rollingMin length close
  let df1 := (df.setCol "recent_high" recent_high).setCol "recent_low" recent_low
  let df2 := df1.setCol "signal" (List.replicate df1.nrows (some (0 : ℚ)))
  let df3 := df2.setCol "signal" (locSet (df2.colD "signal") (sGt close recent_high) 1)
  df3.setCol "signal" (locSet (df3.colD "signal") (sLt close recent_low) (-1))

/-- The ratio `vwap = cum_pv / cum_vol` of cumulative sums, with IEEE
division semantics. -/
def vwapSeries (close volume : List Cell) : List DivVal :=
  (List.range (cumsum (sMul close volume)).length).map fun i =>
    fdiv ((cumsum (sMul close volume)).getD i none) ((cumsum volume).getD i none)

/-- VWAP strategy (`strat_vwap`).  The ratio of cumulative sums is taken
with IEEE division semantics (`DivVal`); the signal comparisons use the
uncollapsed quotients, as the Python code compares the float column. -/
def strat_vwap (df : Table) : Table :=
  let close := df.colD "close"
  let volume := df.colD "volume"
  let cum_vol := cumsum volume
  let cum_pv := cumsum (sMul close volume)
  let vwap := vwapSeries close volume
  let df1 := ((df.setCol "cum_vol" cum_vol).setCol "cum_pv" cum_pv).setCol
    "vwap" (vwap.map dToCell)
  df1.setCol "signal" ((List.range close.length).map fun i =>
    some (boolToQ (cGtD (close.getD i none) (vwap.getD i .nan)) -
          boolToQ (cLtD (close.getD i none) (vwap.getD i .nan))))

/-- Momentum strategy (`strat_momentum`): lagged difference of close. -/
def strat_momentum (df : Table) (length : ℕ) : Table :=
  let close := df.colD "close"
  let mom := diffSeries length close
  let df1 := df.setCol "mom" mom
  df1.setCol "signal" (signalFromCmp mom (List.replicate mom.length (some (0 : ℚ))))

/-- Errors the normalization path can raise.  `keyErrorNone` models the
Python `KeyError` raised by subscripting with `None` (`df[None]`), which
happens when the timestamp search or one of the optional-column detectors
comes up empty; `valueError` models the descriptive errors raised by
`detect_close_column` and `detect_volume_column`. -/
inductive PyErr where
  | keyErrorNone
  | valueError (msg : String)
  deriving DecidableEq

/-- Flattening of a composite (MultiIndex) column name: the non-empty
parts joined with an underscore.  A plain single-level name is the
one-element list and flattens to itself. -/
def flattenName (parts : List String) : String :=
  String.intercalate "_" (parts.filter fun s => s ≠ "")

/-- A raw tabular snapshot as handed to `normalize_df`: the index column
(with its name, which `reset_index` turns into an ordinary column at the
front, unnamed indexes appearing as "index") and the data columns with
possibly composite names.  Cell values are the post-coercion numeric
values (see the module comment). -/
structure RawSnapshot where
  nrows : ℕ
  indexName : String
  indexCol : List Cell
  cols : List (List String × List Cell)
  deriving DecidableEq

/-- Column list of the snapshot after the first three steps of
`normalize_df`: data column names flattened and lower-cased, then the
index inserted at the front by `reset_index` (its name is not lower-cased,
because the lower-casing happens before `reset_index`). -/
def procCols (raw : RawSnapshot) : List (String × List Cell) :=
  (raw.indexName, raw.indexCol) :: raw.cols.map fun p => ((flattenName p.1).toLower, p.2)

/-- Processed column names of a snapshot. -/
def procNames (raw : RawSnapshot) : List String :=
  (procCols raw).map Prod.fst

/-- The timestamp search predicate: `col.lower() in ["datetime", "date", "index"]`. -/
def isTsName (s : String) : Bool :=
  ["datetime", "date", "index"].contains s.toLower

/-- Substring test, `pat in s` for a non-empty pattern. -/
def containsStr (s pat : String) : Bool :=
  2 ≤ (s.splitOn pat).length

/-- Mirror of `detect_close_column`: first column whose name starts with
"close" (case-sensitive, the names being already lower-cased inside
`normalize_df`), else first column whose lower-cased name contains
"close"; `none` models the `ValueError` raise. -/
def detect_close_column (df : Table) : Option String :=
  match df.cols.find? (fun p => p.1.startsWith "close") with
  | some p => some p.1
  | none => (df.cols.find? (fun p => containsStr p.1.toLower "close")).map (·.1)

/-- Mirror of `detect_open_column` (returns `None` when nothing matches). -/
def detect_open_column (df : Table) : Option String :=
  match df.cols.find? (fun p => p.1.startsWith "open") with
  | some p => some p.1
  | none => (df.cols.find? (fun p => containsStr p.1.toLower "open")).map (·.1)

/-- Mirror of `detect_high_column`. -/
def detect_high_column (df : Table) : Option String :=
  match df.cols.find? (fun p => p.1.startsWith "high") with
  | some p => some p.1
  | none => (df.cols.find? (fun p => containsStr p.1.toLower "high")).map (·.1)

/-- Mirror of `detect_low_column`. -/
def detect_low_column (df : Table) : Option String :=
  match df.cols.find? (fun p => p.1.startsWith "low") with
  | some p => some p.1
  | none => (df.cols.find? (fun p => containsStr p.1.toLower "low")).map (·.1)

/-- Mirror of `detect_volume_column`: the only detector with no
starts-with preference, and it searches for the substring "vol", not
"volume". -/
def detect_volume_column (df : Table) : Option String :=
  (df.cols.find? (fun p => containsStr p.1.toLower "vol")).map (·.1)

/-- Mirror of `normalize_df`: flatten and lower-case the column names,
reset the index into a column, locate the timestamp column (an empty
search leaves `datetime_col = None` and the subscript `df[None]` raises
`KeyError`), then resolve close, open, high, low and volume in that order.
A failed close or volume detection raises the descriptive `ValueError`; a
failed open, high or low detection returns `None` and the subsequent
`df[None]` subscript raises `KeyError`. -/
def normalize_df (raw : RawSnapshot) : Except PyErr Table :=
  let df0 : Table := ⟨raw.nrows, procCols raw⟩
  match df0.cols.find? (fun p => isTsName p.1) with
  | none => .error .keyErrorNone
  | some ts =>
    let df1 := df0.setCol "Datetime" ts.2
    match detect_close_column df1 with
    | none => .error (.valueError "No CLOSE-like column found!")
    | some c =>
      let df2 := df1.setCol "close" (df1.colD c)
      match detect_open_column df2 with
      | none => .error .keyErrorNone
      | some o =>
        let df3 := df2.setCol "open" (df2.colD o)
        match detect_high_column df3 with
        | none => .error .keyErrorNone
        | some hc =>
          let df4 := df3.setCol "high" (df3.colD hc)
          match detect_low_column df4 with
          | none => .error .keyErrorNone
          | some lc =>
            let df5 := df4.setCol "low" (df4.colD lc)
            match detect_volume_column df5 with
            | none => .error (.valueError "No VOLUME column found!")
            | some v => .ok (df5.setCol "volume" (df5.colD v))

/-- The strategy registry `STRATEGY_MAP`, keyed by the display names used
in the source; each entry is the strategy applied with its default
parameters, as the main loop calls `STRATEGY_MAP[strategy_name](df)`.
The Bollinger entry carries the square-root parameter of `rollingStd`. -/
def STRATEGY_MAP (sq : ℚ → ℚ) (name : String) : Option (Table → Table) :=
  match name with
  | "MA Crossover" => some fun df => strat_ma df 5 20
  | "RSI" => some fun df => strat_rsi df 14
  | "MACD" => some strat_macd
  | "Bollinger Bands" => some fun df => strat_bbands sq df 20 2
  | "Breakout" => some fun df => strat_breakout df 20
  | "VWAP" => some strat_vwap
  | "Momentum" => some fun df => strat_momentum df 10
  | _ => none

/-- The column-resolution rule the specification describes for the price
fields: first column whose name starts with the field name, else first
column whose lower-cased name contains it. -/
def resolveStartsContains (cols : List (String × List Cell)) (field : String) :
    Option (String × List Cell) :=
  match cols.find? (fun p => p.1.startsWith field) with
  | some p => some p
  | none => cols.find? (fun p => containsStr p.1.toLower field)

/-- The column-resolution rule the code actually applies for volume: the
first column whose lower-cased name contains the substring "vol". -/
def resolveVol (cols : List (String × List Cell)) : Option (String × List Cell) :=
  cols.find? (fun p => containsStr p.1.toLower "vol")

/-! Basic evaluation lemmas for the series combinators. -/

theorem getD_range_map (f : ℕ → α) (n i : ℕ) (d : α) :
    ((List.range n).map f).getD i d = if i < n then f i else d := by
  by_cases h : i < n
  · simp [List.getD_eq_getElem?_getD, List.getElem?_map, List.getElem?_range h, h]
  · simp only [List.getD_eq_getElem?_getD]
    rw [List.getElem?_eq_none (by simpa using Nat.le_of_not_lt h)]
    simp [h]

theorem length_range_map (f : ℕ → α) (n : ℕ) : ((List.range n).map f).length = n := by
  simp

@[simp] theorem cellGt_none_right (a : Cell) : cellGt a none = false := by
  cases a <;> rfl

@[simp] theorem cellGt_none_left (a : Cell) : cellGt none a = false := rfl

@[simp] theorem cellLt_none_right (a : Cell) : cellLt a none = false := by
  cases a <;> rfl

@[simp] theorem cellLt_none_left (a : Cell) : cellLt none a = false := rfl

theorem allSome_eq_some : ∀ {xs : List Cell} {vs : List ℚ},
    allSome xs = some vs → xs = vs.map some := by
  intro xs
  induction xs with
  | nil => intro vs h; cases h; rfl
  | cons hd tl ih =>
    intro vs h
    cases hd with
    | none => exact absurd h (by simp [allSome])
    | some q =>
      rw [show allSome (some q :: tl) = (allSome tl).map (q :: ·) from rfl,
        Option.map_eq_some'] at h
      obtain ⟨ts, hts, hvs⟩ := h
      subst hvs
      simp [ih hts]

theorem allSome_length {xs : List Cell} {vs : List ℚ} (h : allSome xs = some vs) :
    vs.length = xs.length := by
  rw [allSome_eq_some h]; simp

theorem length_rollingApply (f : List ℚ → Option ℚ) (n : ℕ) (xs : List Cell) :
    (rollingApply f n xs).length = xs.length := by
  simp [rollingApply]

theorem getD_rollingApply (f : List ℚ → Option ℚ) (n : ℕ) (xs : List Cell) (i : ℕ)
    (hi : i < xs.length) :
    (rollingApply f n xs).getD i none =
      if 1 ≤ n ∧ n ≤ i + 1 then
        match allSome (windowAt xs n i) with
        | some vals => f vals
        | none => none
      else none := by
  rw [rollingApply, getD_range_map]
  simp [hi]

theorem getD_rollingApply_of_len_le (f : List ℚ → Option ℚ) (n : ℕ) (xs : List Cell) (i : ℕ)
    (hi : xs.length ≤ i) : (rollingApply f n xs).getD i none = none := by
  rw [rollingApply, getD_range_map]
  simp [Nat.not_lt.mpr hi]

theorem length_windowAt (xs : List Cell) (n i : ℕ) (h1 : n ≤ i + 1) (hi : i < xs.length) :
    (windowAt xs n i).length = n := by
  simp only [windowAt, List.length_drop, List.length_take]
  omega

theorem windowAt_sublist (xs : List Cell) (n i : ℕ) : (windowAt xs n i).Sublist xs :=
  ((xs.take (i + 1)).drop_sublist _).trans (xs.take_sublist _)

theorem windowAt_last (xs : List Cell) (n i : ℕ) (h0 : 1 ≤ n) (h1 : n ≤ i + 1)
    (hi : i < xs.length) : (windowAt xs n i).getD (n - 1) none = xs.getD i none := by
  simp only [windowAt, List.getD_eq_getElem?_getD, List.getElem?_drop, List.getElem?_take]
  have h : i + 1 - n + (n - 1) = i := by omega
  rw [h]
  simp [Nat.lt_succ_self, hi]

theorem length_locSet (vals : List Cell) (mask : List Bool) (x : ℚ) :
    (locSet vals mask x).length = vals.length := by
  simp [locSet]

theorem getD_locSet (vals : List Cell) (mask : List Bool) (x : ℚ) (i : ℕ)
    (hi : i < vals.length) :
    (locSet vals mask x).getD i none =
      if mask.getD i false then some x else vals.getD i none := by
  rw [locSet, getD_range_map]
  simp [hi]

theorem mem_locSet {vals : List Cell} {mask : List Bool} {x : ℚ} {v : Cell}
    (h : v ∈ locSet vals mask x) : v = some x ∨ v ∈ vals := by
  rw [locSet] at h
  rw [List.mem_map] at h
  obtain ⟨i, hi, hv⟩ := h
  rw [List.mem_range] at hi
  by_cases hm : mask.getD i false = true
  · left
    rw [if_pos hm] at hv
    exact hv.symm
  · right
    rw [if_neg hm] at hv
    subst hv
    rw [List.getD_eq_getElem?_getD, List.getElem?_eq_getElem hi]
    exact List.getElem_mem hi

theorem getD_sGt (a b : List Cell) (i : ℕ) (hi : i < a.length) :
    (sGt a b).getD i false = cellGt (a.getD i none) (b.getD i none) := by
  rw [sGt, getD_range_map]
  simp [hi]

theorem getD_sLt (a b : List Cell) (i : ℕ) (hi : i < a.length) :
    (sLt a b).getD i false = cellLt (a.getD i none) (b.getD i none) := by
  rw [sLt, getD_range_map]
  simp [hi]

theorem getD_sGt_of_len_le (a b : List Cell) (i : ℕ) (hi : a.length ≤ i) :
    (sGt a b).getD i false = false := by
  rw [sGt, getD_range_map]
  simp [Nat.not_lt.mpr hi]

theorem getD_sLt_of_len_le (a b : List Cell) (i : ℕ) (hi : a.length ≤ i) :
    (sLt a b).getD i false = false := by
  rw [sLt, getD_range_map]
  simp [Nat.not_lt.mpr hi]

theorem getD_map_cell {α : Type} (f : α → Cell) (l : List α) (i : ℕ) (d : α)
    (hi : i < l.length) : (l.map f).getD i none = f (l.getD i d) := by
  simp [List.getD_eq_getElem?_getD, List.getElem?_map, List.getElem?_eq_getElem hi]

/-! Lemmas about tables: column lookup after column assignment. -/

theorem Table.nrows_setCol (df : Table) (name : String) (vals : List Cell) :
    (df.setCol name vals).nrows = df.nrows := by
  rw [Table.setCol]
  split <;> rfl

theorem find?_replace_ne (cols : List (String × List Cell)) (nm : String) (vs : List Cell)
    (p : String → Bool) (hp : p nm = false) :
    (cols.map fun q => if q.1 == nm then (nm, vs) else q).find? (fun q => p q.1) =
      cols.find? (fun q => p q.1) := by
  induction cols with
  | nil => rfl
  | cons hd tl ih =>
    rw [List.map_cons]
    by_cases hnm : (hd.1 == nm) = true
    · have heq : hd.1 = nm := eq_of_beq hnm
      rw [if_pos hnm]
      simp only [List.find?_cons, heq, hp, ih]
    · rw [if_neg hnm]
      by_cases hp2 : p hd.1 = true
      · simp only [List.find?_cons, hp2]
      · simp only [List.find?_cons, Bool.eq_false_iff.mpr hp2, ih]

theorem find?_replace_self (cols : List (String × List Cell)) (nm : String) (vs : List Cell)
    (hany : cols.any (fun q => q.1 == nm) = true) :
    (cols.map fun q => if q.1 == nm then (nm, vs) else q).find? (fun q => q.1 == nm) =
      some (nm, vs) := by
  induction cols with
  | nil => simp at hany
  | cons hd tl ih =>
    rw [List.map_cons]
    by_cases hnm : (hd.1 == nm) = true
    · rw [if_pos hnm]
      simp [List.find?_cons]
    · rw [if_neg hnm]
      simp only [List.find?_cons, hnm]
      refine ih ?_
      rcases List.any_eq_true.mp hany with ⟨q, hq, hq2⟩
      rcases List.mem_cons.mp hq with h | h
      · exact absurd (h ▸ hq2) hnm
      · exact List.any_eq_true.mpr ⟨q, h, hq2⟩

theorem Table.find?_setCol (df : Table) (name : String) (vals : List Cell)
    (p : String → Bool) (hp : p name = false) :
    ((df.setCol name vals).cols.find? fun q => p q.1) =
      df.cols.find? fun q => p q.1 := by
  rw [Table.setCol]
  split
  · exact find?_replace_ne df.cols name vals p hp
  · rw [List.find?_append]
    cases hf : df.cols.find? fun q => p q.1 with
    | none => simp [List.find?_cons, hp]
    | some q => rfl

theorem Table.colD_setCol_ne (df : Table) (name other : String) (vals : List Cell)
    (h : other ≠ name) : (df.setCol name vals).colD other = df.colD other := by
  rw [Table.colD, Table.colD,
    Table.find?_setCol df name vals (fun s => s == other) (by simp [Ne.symm h])]

theorem Table.colD_setCol_self (df : Table) (name : String) (vals : List Cell) :
    (df.setCol name vals).colD name = vals := by
  rw [Table.setCol]
  by_cases hany : (df.cols.any fun q => q.1 == name) = true
  · rw [if_pos hany, Table.colD]
    rw [show (Table.mk df.nrows (df.cols.map fun q =>
        if q.1 == name then (name, vals) else q)).cols = df.cols.map fun q =>
        if q.1 == name then (name, vals) else q from rfl]
    rw [find?_replace_self df.cols name vals hany]
  · rw [if_neg hany, Table.colD]
    rw [show (Table.mk df.nrows (df.cols ++ [(name, vals)])).cols =
        df.cols ++ [(name, vals)] from rfl]
    rw [List.find?_append]
    have hnone : df.cols.find? (fun q => q.1 == name) = none := by
      rw [List.find?_eq_none]
      intro q hq
      intro hcontra
      exact hany (List.any_eq_true.mpr ⟨q, hq, hcontra⟩)
    rw [hnone]
    simp [List.find?_cons]

theorem getD_map' {α β : Type} (f : α → β) (l : List α) (i : ℕ) (da : α) (db : β)
    (hi : i < l.length) : (l.map f).getD i db = f (l.getD i da) := by
  simp [List.getD_eq_getElem?_getD, List.getElem?_map, List.getElem?_eq_getElem hi]

theorem getD_of_len_le {α : Type} (l : List α) (i : ℕ) (d : α) (h : l.length ≤ i) :
    l.getD i d = d := by
  rw [List.getD_eq_getElem?_getD, List.getElem?_eq_none h]
  rfl

theorem getD_mem {α : Type} (l : List α) (i : ℕ) (d : α) (hi : i < l.length) :
    l.getD i d ∈ l := by
  rw [List.getD_eq_getElem?_getD, List.getElem?_eq_getElem hi]
  exact List.getElem_mem hi

theorem getD_sGt_total (a b : List Cell) (i : ℕ) :
    (sGt a b).getD i false = cellGt (a.getD i none) (b.getD i none) := by
  by_cases hi : i < a.length
  · exact getD_sGt a b i hi
  · rw [getD_sGt_of_len_le a b i (le_of_not_lt hi)]
    rw [List.getD_eq_getElem?_getD, List.getElem?_eq_none (le_of_not_lt hi)]
    simp

theorem getD_sLt_total (a b : List Cell) (i : ℕ) :
    (sLt a b).getD i false = cellLt (a.getD i none) (b.getD i none) := by
  by_cases hi : i < a.length
  · exact getD_sLt a b i hi
  · rw [getD_sLt_of_len_le a b i (le_of_not_lt hi)]
    rw [List.getD_eq_getElem?_getD, List.getElem?_eq_none (le_of_not_lt hi)]
    simp

theorem getD_replicate_lt (c : Cell) (n i : ℕ) (hi : i < n) :
    (List.replicate n c).getD i none = c := by
  rw [List.getD_eq_getElem?_getD, List.getElem?_replicate]
  simp [hi]

/-! Lemmas about the rolling combinators and the list extrema. -/

theorem le_foldl_max : ∀ (t : List ℚ) (a : ℚ), a ≤ t.foldl max a
  | [], a => le_refl a
  | b :: t, a => le_trans (le_max_left a b) (le_foldl_max t (max a b))

theorem mem_le_foldl_max : ∀ (t : List ℚ) (a x : ℚ), x ∈ t → x ≤ t.foldl max a
  | b :: t, a, x, h => by
    rcases List.mem_cons.mp h with rfl | h
    · exact le_trans (le_max_right a x) (le_foldl_max t _)
    · exact mem_le_foldl_max t (max a b) x h

theorem listMax_ge {l : List ℚ} {x : ℚ} (h : x ∈ l) : x ≤ listMax l := by
  cases l with
  | nil => cases h
  | cons hd t =>
    rw [listMax]
    rcases List.mem_cons.mp h with rfl | h
    · exact le_foldl_max t x
    · exact mem_le_foldl_max t hd x h

theorem foldl_min_le : ∀ (t : List ℚ) (a : ℚ), t.foldl min a ≤ a
  | [], a => le_refl a
  | b :: t, a => le_trans (foldl_min_le t (min a b)) (min_le_left a b)

theorem foldl_min_le_mem : ∀ (t : List ℚ) (a x : ℚ), x ∈ t → t.foldl min a ≤ x
  | b :: t, a, x, h => by
    rcases List.mem_cons.mp h with rfl | h
    · exact le_trans (foldl_min_le t _) (min_le_right a x)
    · exact foldl_min_le_mem t (min a b) x h

theorem listMin_le {l : List ℚ} {x : ℚ} (h : x ∈ l) : listMin l ≤ x := by
  cases l with
  | nil => cases h
  | cons hd t =>
    rw [listMin]
    rcases List.mem_cons.mp h with rfl | h
    · exact foldl_min_le t x
    · exact foldl_min_le_mem t hd x h

theorem rolling_getD_cases (f : List ℚ → Option ℚ) (n : ℕ) (xs : List Cell) (i : ℕ) :
    (rollingApply f n xs).getD i none = none ∨
    ∃ vals, allSome (windowAt xs n i) = some vals ∧ 1 ≤ n ∧ n ≤ i + 1 ∧ i < xs.length ∧
      (rollingApply f n xs).getD i none = f vals := by
  by_cases hi : i < xs.length
  · rw [getD_rollingApply f n xs i hi]
    by_cases hg : 1 ≤ n ∧ n ≤ i + 1
    · rw [if_pos hg]
      cases ha : allSome (windowAt xs n i) with
      | none => left; rfl
      | some vals => right; exact ⟨vals, rfl, hg.1, hg.2, hi, rfl⟩
    · rw [if_neg hg]
      left; rfl
  · left
    exact getD_rollingApply_of_len_le f n xs i (le_of_not_lt hi)

theorem rolling_getD_warmup (f : List ℚ → Option ℚ) (n : ℕ) (xs : List Cell) (i : ℕ)
    (h : i + 1 < n) : (rollingApply f n xs).getD i none = none := by
  by_cases hi : i < xs.length
  · rw [getD_rollingApply f n xs i hi, if_neg (by omega)]
  · exact getD_rollingApply_of_len_le f n xs i (le_of_not_lt hi)

/-- The value at the current row belongs to any defined trailing window
ending there: close cannot exceed the rolling maximum of a window that
contains it. -/
theorem current_mem_window (xs : List Cell) (n i : ℕ) (vals : List ℚ)
    (ha : allSome (windowAt xs n i) = some vals) (hn : 1 ≤ n) (hn2 : n ≤ i + 1)
    (hi : i < xs.length) :
    xs.getD i none = some (vals.getD (n - 1) 0) ∧ vals.getD (n - 1) 0 ∈ vals := by
  have hwin := allSome_eq_some ha
  have hlen : vals.length = n := by
    have h1 := allSome_length ha
    rw [length_windowAt xs n i hn2 hi] at h1
    exact h1
  have hlast := windowAt_last xs n i hn hn2 hi
  rw [hwin] at hlast
  have hn1 : n - 1 < vals.length := by omega
  rw [getD_map' some vals (n - 1) 0 none hn1] at hlast
  exact ⟨hlast.symm, getD_mem vals (n - 1) 0 hn1⟩

theorem sGt_rollingMax_false (xs : List Cell) (n i : ℕ) :
    (sGt xs (rollingMax n xs)).getD i false = false := by
  rw [getD_sGt_total]
  rcases rolling_getD_cases (fun l => some (listMax l)) n xs i with h | hcase
  · rw [show rollingMax n xs = rollingApply (fun l => some (listMax l)) n xs from rfl, h]
    exact cellGt_none_right _
  · obtain ⟨vals, ha, hn, hn2, hi, hval⟩ := hcase
    rw [show rollingMax n xs = rollingApply (fun l => some (listMax l)) n xs from rfl, hval]
    obtain ⟨hcur, hmem⟩ := current_mem_window xs n i vals ha hn hn2 hi
    rw [hcur]
    simp only [cellGt]
    exact decide_eq_false (not_lt.mpr (listMax_ge hmem))

theorem sLt_rollingMin_false (xs : List Cell) (n i : ℕ) :
    (sLt xs (rollingMin n xs)).getD i false = false := by
  rw [getD_sLt_total]
  rcases rolling_getD_cases (fun l => some (listMin l)) n xs i with h | hcase
  · rw [show rollingMin n xs = rollingApply (fun l => some (listMin l)) n xs from rfl, h]
    exact cellLt_none_right _
  · obtain ⟨vals, ha, hn, hn2, hi, hval⟩ := hcase
    rw [show rollingMin n xs = rollingApply (fun l => some (listMin l)) n xs from rfl, hval]
    obtain ⟨hcur, hmem⟩ := current_mem_window xs n i vals ha hn hn2 hi
    rw [hcur]
    simp only [cellLt]
    exact decide_eq_false (not_lt.mpr (listMin_le hmem))

theorem locSet_mask_false (vals : List Cell) (mask : List Bool) (x : ℚ)
    (h : ∀ i, mask.getD i false = false) : locSet vals mask x = vals := by
  apply List.ext_getElem (length_locSet vals mask x)
  intro i h1 h2
  have hgd := getD_locSet vals mask x i h2
  rw [h i] at hgd
  rw [if_neg (by simp)] at hgd
  rw [List.getD_eq_getElem?_getD, List.getD_eq_getElem?_getD,
    List.getElem?_eq_getElem h1, List.getElem?_eq_getElem h2] at hgd
  simpa using hgd

@[simp] theorem fdiv_none_left (x : Cell) : fdiv none x = .nan := by
  cases x <;> rfl

@[simp] theorem fdiv_none_right (x : Cell) : fdiv x none = .nan := by
  cases x <;> rfl

@[simp] theorem cellAdd_none_left (x : Cell) : cellAdd none x = none := by
  cases x <;> rfl

@[simp] theorem cellSub_none_left (x : Cell) : cellSub none x = none := by
  cases x <;> rfl

/-- Value of the doubly-masked signal column produced by the pattern
`signal = 0; signal[mask1] = 1; signal[mask2] = -1`. -/
theorem chain_getD (nr : ℕ) (m1 m2 : List Bool) (i : ℕ) (hi : i < nr) :
    (locSet (locSet (List.replicate nr (some (0 : ℚ))) m1 1) m2 (-1)).getD i none =
      if m2.getD i false then some (-1)
      else if m1.getD i false then some 1 else some 0 := by
  rw [getD_locSet _ _ _ i (by rw [length_locSet, List.length_replicate]; exact hi)]
  rw [getD_locSet _ _ _ i (by rw [List.length_replicate]; exact hi)]
  rw [getD_replicate_lt _ _ _ hi]

/-- During the warm-up rows of the RSI window, the gain mean is undefined,
so rs and rsi are NaN. -/
theorem rsiSeries_getD_warmup (close : List Cell) (n i : ℕ) (h : i + 1 < n) :
    (rsiSeries close n).getD i .nan = .nan := by
  by_cases hi : i < (rsSeries close n).length
  · rw [rsiSeries, getD_map' rsiOfRs _ i .nan .nan hi]
    rw [rsSeries, getD_range_map]
    split
    · rw [show gainSeries close n = rollingApply
          (fun l => some (l.sum / (l.length : ℚ))) n
          ((diffSeries 1 close).map (Option.map fun d => max d 0)) from rfl,
        rolling_getD_warmup _ _ _ _ h]
      simp [rsiOfRs]
    · rfl
  · have hlen : (rsiSeries close n).length ≤ i := by
      rw [rsiSeries, List.length_map]
      exact le_of_not_lt hi
    rw [getD_of_len_le _ _ _ hlen]

/-- Concrete three-row table with close `[1, 2, 2]`: with fast window 1 and
slow window 2, row 1 has `ma_fast = 2 > 3/2 = ma_slow` and row 2 has
`ma_fast = 2 = ma_slow`, an exact tie right after a +1 signal. -/
def dfEx : Table := ⟨3, [("close", [some 1, some 2, some 2])]⟩

/-- Claim C1 counterexample: on close `[1, 2, 2]` with fast = 1 and
slow = 2, row 2 is an exact tie (`ma_fast = ma_slow = 2`) and row 1 carries
signal +1, yet the MA Crossover signal at row 2 is 0, not the previous
row's +1: the code resets the signal to 0 on ties instead of persisting
the last non-zero signal. -/
theorem ma_crossover_tie_resets_to_zero :
    (strat_ma dfEx 1 2).colD "signal" = [some 0, some 1, some 0] ∧
    (rollingMean 1 (dfEx.colD "close")).getD 2 none = some 2 ∧
    (rollingMean 2 (dfEx.colD "close")).getD 2 none = some 2 :=
  ⟨by with_unfolding_all rfl, by with_unfolding_all rfl, by with_unfolding_all rfl⟩

/-- Claim C1 (amended): for the MA Crossover strategy, the signal at row
`i` is +1 if `ma_fast > ma_slow`, -1 if `ma_fast < ma_slow`, and 0
otherwise (exact tie, or NaN in either moving average, including all rows
before the windows fill): the signal resets to 0 rather than persisting
the previous row's value. -/
theorem strat_ma_signal_rule (df : Table) (fast slow i : ℕ) (hi : i < df.nrows) :
    ((strat_ma df fast slow).colD "signal").getD i none =
      some (if cellLt ((rollingMean fast (df.colD "close")).getD i none)
                ((rollingMean slow (df.colD "close")).getD i none) then -1
            else if cellGt ((rollingMean fast (df.colD "close")).getD i none)
                ((rollingMean slow (df.colD "close")).getD i none) then 1
            else 0) := by
  simp only [strat_ma]
  rw [Table.colD_setCol_self, Table.colD_setCol_self, Table.colD_setCol_self]
  rw [Table.nrows_setCol, Table.nrows_setCol]
  rw [getD_locSet _ _ _ i (by
    rw [length_locSet, List.length_replicate]; exact hi)]
  rw [getD_locSet _ _ _ i (by rw [List.length_replicate]; exact hi)]
  rw [getD_replicate_lt _ _ _ hi]
  rw [getD_sGt_total, getD_sLt_total]
  split_ifs <;> rfl

/-- Witness for the amended claim C1 theorem at the concrete table `dfEx`
and row 1, where the fast mean exceeds the slow mean. -/
theorem strat_ma_signal_rule_witness :
    ((strat_ma dfEx 1 2).colD "signal").getD 1 none =
      some (if cellLt ((rollingMean 1 (dfEx.colD "close")).getD 1 none)
                ((rollingMean 2 (dfEx.colD "close")).getD 1 none) then -1
            else if cellGt ((rollingMean 1 (dfEx.colD "close")).getD 1 none)
                ((rollingMean 2 (dfEx.colD "close")).getD 1 none) then 1
            else 0) :=
  strat_ma_signal_rule dfEx 1 2 1 (by decide)

/-- Claim C5: for every well-formed input table and every window length
`n ≥ 1`, the Breakout strategy's signal column is 0 at every row: the
rolling extrema include the current row, so `close > recent_high` and
`close < recent_low` are false wherever the window is defined, and NaN
comparisons leave the signal at its default 0. -/
theorem strat_breakout_signal_zero (df : Table) (n : ℕ) (hn : 1 ≤ n) (hwf : df.WF) :
    ∀ v ∈ (strat_breakout df n).colD "signal", v = some 0 := by
  simp only [strat_breakout]
  rw [Table.colD_setCol_self, Table.colD_setCol_self, Table.colD_setCol_self]
  rw [locSet_mask_false _ _ _ (fun i => sLt_rollingMin_false (df.colD "close") n i)]
  rw [locSet_mask_false _ _ _ (fun i => sGt_rollingMax_false (df.colD "close") n i)]
  intro v hv
  exact List.eq_of_mem_replicate hv

/-- Witness for the claim C5 theorem at the concrete table `dfEx` with
window 2: the entry of the breakout signal column at row 1 is 0. -/
theorem strat_breakout_signal_zero_witness :
    ((strat_breakout dfEx 2).colD "signal").getD 1 none = some 0 :=
  strat_breakout_signal_zero dfEx 2 (by decide)
    ⟨by decide, by intro p hp; fin_cases hp <;> rfl⟩
    (((strat_breakout dfEx 2).colD "signal").getD 1 none)
    (by with_unfolding_all decide)

/-- Claim C9: for each windowed strategy (MA Crossover with slow window
`n`, RSI with period `n`, Bollinger Bands with window `n`, Breakout with
window `n`), the signal at every row `i` with `i + 1 < n` (rows `0 .. n-2`)
is 0, because the trailing right-aligned window is undefined there and
undefined comparisons resolve to HOLD. -/
theorem windowed_warmup_hold (df : Table) (n fast : ℕ) (mult : ℚ) (sq : ℚ → ℚ) (i : ℕ)
    (hwarm : i + 1 < n) (hi : i < df.nrows) :
    ((strat_ma df fast n).colD "signal").getD i none = some 0 ∧
    ((strat_rsi df n).colD "signal").getD i none = some 0 ∧
    ((strat_bbands sq df n mult).colD "signal").getD i none = some 0 ∧
    ((strat_breakout df n).colD "signal").getD i none = some 0 := by
  refine ⟨?_, ?_, ?_, ?_⟩
  · simp only [strat_ma]
    rw [Table.colD_setCol_self, Table.colD_setCol_self, Table.colD_setCol_self]
    rw [Table.nrows_setCol, Table.nrows_setCol]
    rw [chain_getD _ _ _ i hi]
    rw [getD_sGt_total, getD_sLt_total]
    rw [show rollingMean n (df.colD "close") = rollingApply
        (fun l => some (l.sum / (l.length : ℚ))) n (df.colD "close") from rfl,
      rolling_getD_warmup _ _ _ _ hwarm]
    simp
  · simp only [strat_rsi]
    rw [Table.colD_setCol_self, Table.colD_setCol_self, Table.colD_setCol_self]
    rw [Table.nrows_setCol]
    rw [chain_getD _ _ _ i hi]
    have hm : ∀ g : DivVal → Bool, g .nan = false →
        (((rsiSeries (df.colD "close") n).map g).getD i false) = false := by
      intro g hg
      by_cases hlen : i < (rsiSeries (df.colD "close") n).length
      · rw [getD_map' g _ i .nan false hlen,
          rsiSeries_getD_warmup (df.colD "close") n i hwarm, hg]
      · rw [getD_of_len_le _ _ _ (by
          rw [List.length_map]; exact le_of_not_lt hlen)]
    rw [hm (fun d => dGtC d 70) rfl, hm (fun d => dLtC d 30) rfl]
    simp
  · simp only [strat_bbands]
    rw [Table.colD_setCol_self, Table.colD_setCol_self, Table.colD_setCol_self]
    rw [Table.nrows_setCol, Table.nrows_setCol, Table.nrows_setCol, Table.nrows_setCol]
    rw [chain_getD _ _ _ i hi]
    have hma : (rollingMean n (df.colD "close")).getD i none = none := by
      rw [show rollingMean n (df.colD "close") = rollingApply
          (fun l => some (l.sum / (l.length : ℚ))) n (df.colD "close") from rfl]
      exact rolling_getD_warmup _ _ _ _ hwarm
    have hupper : (sAdd (rollingMean n (df.colD "close"))
        (sScale mult (rollingStd sq n (df.colD "close")))).getD i none = none := by
      by_cases hlen : i < (rollingMean n (df.colD "close")).length
      · rw [sAdd, getD_range_map, if_pos hlen, hma]
        simp
      · rw [sAdd, getD_range_map, if_neg hlen]
    have hlower : (sSub (rollingMean n (df.colD "close"))
        (sScale mult (rollingStd sq n (df.colD "close")))).getD i none = none := by
      by_cases hlen : i < (rollingMean n (df.colD "close")).length
      · rw [sSub, getD_range_map, if_pos hlen, hma]
        simp
      · rw [sSub, getD_range_map, if_neg hlen]
    rw [getD_sGt_total, getD_sLt_total, hupper, hlower]
    simp
  · simp only [strat_breakout]
    rw [Table.colD_setCol_self, Table.colD_setCol_self, Table.colD_setCol_self]
    rw [Table.nrows_setCol, Table.nrows_setCol]
    rw [chain_getD _ _ _ i hi]
    rw [sGt_rollingMax_false, sLt_rollingMin_false]
    simp

/-- Witness for the claim C9 theorem: at the concrete table `dfEx` with
window 3, row 0 of each of the four windowed strategies' signal column is
0. -/
theorem windowed_warmup_hold_witness :
    ((strat_ma dfEx 2 3).colD "signal").getD 0 none = some 0 ∧
    ((strat_rsi dfEx 3).colD "signal").getD 0 none = some 0 ∧
    ((strat_bbands (fun q => q) dfEx 3 2).colD "signal").getD 0 none = some 0 ∧
    ((strat_breakout dfEx 3).colD "signal").getD 0 none = some 0 :=
  windowed_warmup_hold dfEx 3 2 2 (fun q => q) 0 (by decide) (by decide)

/-! Shapes of the signal columns of each strategy, and row-count
preservation. -/

theorem nrows_strat_ma (df : Table) (fast slow : ℕ) :
    (strat_ma df fast slow).nrows = df.nrows := by
  simp [strat_ma, Table.nrows_setCol]

theorem nrows_strat_rsi (df : Table) (length : ℕ) :
    (strat_rsi df length).nrows = df.nrows := by
  simp [strat_rsi, Table.nrows_setCol]

theorem nrows_strat_macd (df : Table) : (strat_macd df).nrows = df.nrows := by
  simp [strat_macd, Table.nrows_setCol]

theorem nrows_strat_bbands (sq : ℚ → ℚ) (df : Table) (length : ℕ) (mult : ℚ) :
    (strat_bbands sq df length mult).nrows = df.nrows := by
  simp [strat_bbands, Table.nrows_setCol]

theorem nrows_strat_breakout (df : Table) (length : ℕ) :
    (strat_breakout df length).nrows = df.nrows := by
  simp [strat_breakout, Table.nrows_setCol]

theorem nrows_strat_vwap (df : Table) : (strat_vwap df).nrows = df.nrows := by
  simp [strat_vwap, Table.nrows_setCol]

theorem nrows_strat_momentum (df : Table) (length : ℕ) :
    (strat_momentum df length).nrows = df.nrows := by
  simp [strat_momentum, Table.nrows_setCol]

theorem strat_ma_signal_shape (df : Table) (fast slow : ℕ) :
    (strat_ma df fast slow).colD "signal" =
      locSet (locSet (List.replicate df.nrows (some (0 : ℚ)))
          (sGt (rollingMean fast (df.colD "close")) (rollingMean slow (df.colD "close"))) 1)
        (sLt (rollingMean fast (df.colD "close")) (rollingMean slow (df.colD "close")))
        (-1) := by
  simp only [strat_ma]
  rw [Table.colD_setCol_self, Table.colD_setCol_self, Table.colD_setCol_self,
    Table.nrows_setCol, Table.nrows_setCol]

theorem strat_rsi_signal_shape (df : Table) (length : ℕ) :
    (strat_rsi df length).colD "signal" =
      locSet (locSet (List.replicate df.nrows (some (0 : ℚ)))
          ((rsiSeries (df.colD "close") length).map fun d => dLtC d 30) 1)
        ((rsiSeries (df.colD "close") length).map fun d => dGtC d 70) (-1) := by
  simp only [strat_rsi]
  rw [Table.colD_setCol_self, Table.colD_setCol_self, Table.colD_setCol_self,
    Table.nrows_setCol]

theorem strat_bbands_signal_shape (sq : ℚ → ℚ) (df : Table) (length : ℕ) (mult : ℚ) :
    (strat_bbands sq df length mult).colD "signal" =
      locSet (locSet (List.replicate df.nrows (some (0 : ℚ)))
          (sLt (df.colD "close")
            (sSub (rollingMean length (df.colD "close"))
              (sScale mult (rollingStd sq length (df.colD "close"))))) 1)
        (sGt (df.colD "close")
          (sAdd (rollingMean length (df.colD "close"))
            (sScale mult (rollingStd sq length (df.colD "close"))))) (-1) := by
  simp only [strat_bbands]
  rw [Table.colD_setCol_self, Table.colD_setCol_self, Table.colD_setCol_self,
    Table.nrows_setCol, Table.nrows_setCol, Table.nrows_setCol, Table.nrows_setCol]

theorem strat_breakout_signal_shape (df : Table) (length : ℕ) :
    (strat_breakout df length).colD "signal" =
      locSet (locSet (List.replicate df.nrows (some (0 : ℚ)))
          (sGt (df.colD "close") (rollingMax length (df.colD "close"))) 1)
        (sLt (df.colD "close") (rollingMin length (df.colD "close"))) (-1) := by
  simp only [strat_breakout]
  rw [Table.colD_setCol_self, Table.colD_setCol_self, Table.colD_setCol_self,
    Table.nrows_setCol, Table.nrows_setCol]

theorem strat_macd_signal_shape (df : Table) :
    (strat_macd df).colD "signal" =
      signalFromCmp (sSub (ewmMean 12 (df.colD "close")) (ewmMean 26 (df.colD "close")))
        (ewmMean 9 (sSub (ewmMean 12 (df.colD "close")) (ewmMean 26 (df.colD "close")))) := by
  simp only [strat_macd]
  rw [Table.colD_setCol_self]

theorem strat_vwap_signal_shape (df : Table) :
    (strat_vwap df).colD "signal" =
      (List.range (df.colD "close").length).map fun i =>
        some (boolToQ (cGtD ((df.colD "close").getD i none)
                ((vwapSeries (df.colD "close") (df.colD "volume")).getD i .nan)) -
              boolToQ (cLtD ((df.colD "close").getD i none)
                ((vwapSeries (df.colD "close") (df.colD "volume")).getD i .nan))) := by
  simp only [strat_vwap]
  rw [Table.colD_setCol_self]

theorem strat_momentum_signal_shape (df : Table) (length : ℕ) :
    (strat_momentum df length).colD "signal" =
      signalFromCmp (diffSeries length (df.colD "close"))
        (List.replicate (diffSeries length (df.colD "close")).length (some (0 : ℚ))) := by
  simp only [strat_momentum]
  rw [Table.colD_setCol_self]

theorem boolToQ_sub_cases (g l : Bool) :
    some (boolToQ g - boolToQ l) = some (-1 : ℚ) ∨
    some (boolToQ g - boolToQ l) = some (0 : ℚ) ∨
    some (boolToQ g - boolToQ l) = some (1 : ℚ) := by
  cases g <;> cases l <;> simp [boolToQ] <;> norm_num

theorem mem_signalFromCmp {a b : List Cell} {v : Cell} (h : v ∈ signalFromCmp a b) :
    v = some (-1) ∨ v = some 0 ∨ v = some 1 := by
  rw [signalFromCmp, List.mem_map] at h
  obtain ⟨i, _, hv⟩ := h
  subst hv
  exact boolToQ_sub_cases _ _

theorem mem_chain {nr : ℕ} {m1 m2 : List Bool} {v : Cell}
    (h : v ∈ locSet (locSet (List.replicate nr (some (0 : ℚ))) m1 1) m2 (-1)) :
    v = some (-1) ∨ v = some 0 ∨ v = some 1 := by
  rcases mem_locSet h with rfl | h2
  · left; rfl
  · rcases mem_locSet h2 with rfl | h3
    · right; right; rfl
    · right; left
      exact List.eq_of_mem_replicate h3

theorem length_chain (nr : ℕ) (m1 m2 : List Bool) :
    (locSet (locSet (List.replicate nr (some (0 : ℚ))) m1 1) m2 (-1)).length = nr := by
  rw [length_locSet, length_locSet, List.length_replicate]

theorem length_signalFromCmp (a b : List Cell) : (signalFromCmp a b).length = a.length := by
  simp [signalFromCmp]

theorem length_sSub (a b : List Cell) : (sSub a b).length = a.length := by
  simp [sSub]

theorem length_ewmMean (span : ℕ) (xs : List Cell) : (ewmMean span xs).length = xs.length := by
  simp [ewmMean]

theorem length_diffSeries (n : ℕ) (xs : List Cell) :
    (diffSeries n xs).length = xs.length := by
  simp [diffSeries]

/-- Claim C8: for every strategy in the registry and every well-formed
input table (close and volume columns of full height), the produced signal
column has exactly one entry per input row, and every entry is one of the
integers -1, 0, +1. -/
theorem registry_signal_range (sq : ℚ → ℚ) (name : String) (f : Table → Table)
    (df : Table) (hf : STRATEGY_MAP sq name = some f)
    (hc : (df.colD "close").length = df.nrows)
    (hv : (df.colD "volume").length = df.nrows) :
    ((f df).colD "signal").length = df.nrows ∧
    ∀ v ∈ (f df).colD "signal", v = some (-1) ∨ v = some 0 ∨ v = some 1 := by
  delta STRATEGY_MAP at hf
  split at hf
  · cases hf
    rw [strat_ma_signal_shape]
    exact ⟨length_chain _ _ _, fun v hv2 => mem_chain hv2⟩
  · cases hf
    rw [strat_rsi_signal_shape]
    exact ⟨length_chain _ _ _, fun v hv2 => mem_chain hv2⟩
  · cases hf
    rw [strat_macd_signal_shape]
    refine ⟨?_, fun v hv2 => mem_signalFromCmp hv2⟩
    rw [length_signalFromCmp, length_sSub, length_ewmMean, hc]
  · cases hf
    rw [strat_bbands_signal_shape]
    exact ⟨length_chain _ _ _, fun v hv2 => mem_chain hv2⟩
  · cases hf
    rw [strat_breakout_signal_shape]
    exact ⟨length_chain _ _ _, fun v hv2 => mem_chain hv2⟩
  · cases hf
    rw [strat_vwap_signal_shape]
    constructor
    · rw [length_range_map, hc]
    · intro v hv2
      rw [List.mem_map] at hv2
      obtain ⟨i, _, hval⟩ := hv2
      subst hval
      exact boolToQ_sub_cases _ _
  · cases hf
    rw [strat_momentum_signal_shape]
    refine ⟨?_, fun v hv2 => mem_signalFromCmp hv2⟩
    rw [length_signalFromCmp, length_diffSeries, hc]
  · simp at hf

/-- Concrete three-row table with both close and volume columns. -/
def dfCv : Table :=
  ⟨3, [("close", [some 1, some 2, some 2]), ("volume", [some 1, some 1, some 1])]⟩

/-- Witness for the claim C8 theorem: the registry entry for the MA
Crossover strategy applied to the concrete table `dfCv`. -/
theorem registry_signal_range_witness :
    (((fun df => strat_ma df 5 20) dfCv).colD "signal").length = dfCv.nrows ∧
    ∀ v ∈ ((fun df => strat_ma df 5 20) dfCv).colD "signal",
      v = some (-1) ∨ v = some 0 ∨ v = some 1 :=
  registry_signal_range (fun q => q) "MA Crossover" (fun df => strat_ma df 5 20) dfCv rfl
    (by with_unfolding_all rfl) (by with_unfolding_all rfl)

/-! Column-preservation lemmas: each strategy assigns only to its own
indicator names and to "signal", leaving any other column untouched. -/

theorem colD_strat_ma_other (df : Table) (fast slow : ℕ) (base : String)
    (h1 : base ≠ "ma_fast") (h2 : base ≠ "ma_slow") (h3 : base ≠ "signal") :
    (strat_ma df fast slow).colD base = df.colD base := by
  simp only [strat_ma]
  rw [Table.colD_setCol_ne _ _ _ _ h3, Table.colD_setCol_ne _ _ _ _ h3,
    Table.colD_setCol_ne _ _ _ _ h3, Table.colD_setCol_ne _ _ _ _ h2,
    Table.colD_setCol_ne _ _ _ _ h1]

theorem colD_strat_rsi_other (df : Table) (length : ℕ) (base : String)
    (h1 : base ≠ "rsi") (h2 : base ≠ "signal") :
    (strat_rsi df length).colD base = df.colD base := by
  simp only [strat_rsi]
  rw [Table.colD_setCol_ne _ _ _ _ h2, Table.colD_setCol_ne _ _ _ _ h2,
    Table.colD_setCol_ne _ _ _ _ h2, Table.colD_setCol_ne _ _ _ _ h1]

theorem colD_strat_macd_other (df : Table) (base : String)
    (h1 : base ≠ "ema12") (h2 : base ≠ "ema26") (h3 : base ≠ "macd")
    (h4 : base ≠ "signal_line") (h5 : base ≠ "hist") (h6 : base ≠ "signal") :
    (strat_macd df).colD base = df.colD base := by
  simp only [strat_macd]
  rw [Table.colD_setCol_ne _ _ _ _ h6, Table.colD_setCol_ne _ _ _ _ h5,
    Table.colD_setCol_ne _ _ _ _ h4, Table.colD_setCol_ne _ _ _ _ h3,
    Table.colD_setCol_ne _ _ _ _ h2, Table.colD_setCol_ne _ _ _ _ h1]

theorem colD_strat_bbands_other (sq : ℚ → ℚ) (df : Table) (length : ℕ) (mult : ℚ)
    (base : String) (h1 : base ≠ "ma") (h2 : base ≠ "std") (h3 : base ≠ "upper")
    (h4 : base ≠ "lower") (h5 : base ≠ "signal") :
    (strat_bbands sq df length mult).colD base = df.colD base := by
  simp only [strat_bbands]
  rw [Table.colD_setCol_ne _ _ _ _ h5, Table.colD_setCol_ne _ _ _ _ h5,
    Table.colD_setCol_ne _ _ _ _ h5, Table.colD_setCol_ne _ _ _ _ h4,
    Table.colD_setCol_ne _ _ _ _ h3, Table.colD_setCol_ne _ _ _ _ h2,
    Table.colD_setCol_ne _ _ _ _ h1]

theorem colD_strat_breakout_other (df : Table) (length : ℕ) (base : String)
    (h1 : base ≠ "recent_high") (h2 : base ≠ "recent_low") (h3 : base ≠ "signal") :
    (strat_breakout df length).colD base = df.colD base := by
  simp only [strat_breakout]
  rw [Table.colD_setCol_ne _ _ _ _ h3, Table.colD_setCol_ne _ _ _ _ h3,
    Table.colD_setCol_ne _ _ _ _ h3, Table.colD_setCol_ne _ _ _ _ h2,
    Table.colD_setCol_ne _ _ _ _ h1]

theorem colD_strat_vwap_other (df : Table) (base : String)
    (h1 : base ≠ "cum_vol") (h2 : base ≠ "cum_pv") (h3 : base ≠ "vwap")
    (h4 : base ≠ "signal") :
    (strat_vwap df).colD base = df.colD base := by
  simp only [strat_vwap]
  rw [Table.colD_setCol_ne _ _ _ _ h4, Table.colD_setCol_ne _ _ _ _ h3,
    Table.colD_setCol_ne _ _ _ _ h2, Table.colD_setCol_ne _ _ _ _ h1]

theorem colD_strat_momentum_other (df : Table) (length : ℕ) (base : String)
    (h1 : base ≠ "mom") (h2 : base ≠ "signal") :
    (strat_momentum df length).colD base = df.colD base := by
  simp only [strat_momentum]
  rw [Table.colD_setCol_ne _ _ _ _ h2, Table.colD_setCol_ne _ _ _ _ h1]

/-- Claim C10: every strategy evaluation is copy-on-extend at the value
level: for every registry entry, the result table has the same row count
and identical data in each of the base columns Datetime, open, high, low,
close, volume; strategies only assign to their own indicator names and
"signal".  (Object identity — the Python functions extend the frame in
place rather than copying it — is not observable in this embedding; the
claim's content about existing columns is.) -/
theorem strategies_preserve_base_columns (sq : ℚ → ℚ) (name : String)
    (f : Table → Table) (df : Table) (hf : STRATEGY_MAP sq name = some f)
    (base : String)
    (hb : base ∈ ["Datetime", "open", "high", "low", "close", "volume"]) :
    (f df).colD base = df.colD base ∧ (f df).nrows = df.nrows := by
  delta STRATEGY_MAP at hf
  split at hf
  · cases hf
    refine ⟨?_, nrows_strat_ma df 5 20⟩
    fin_cases hb <;>
      exact colD_strat_ma_other df 5 20 _ (by decide) (by decide) (by decide)
  · cases hf
    refine ⟨?_, nrows_strat_rsi df 14⟩
    fin_cases hb <;> exact colD_strat_rsi_other df 14 _ (by decide) (by decide)
  · cases hf
    refine ⟨?_, nrows_strat_macd df⟩
    fin_cases hb <;>
      exact colD_strat_macd_other df _ (by decide) (by decide) (by decide) (by decide)
        (by decide) (by decide)
  · cases hf
    refine ⟨?_, nrows_strat_bbands sq df 20 2⟩
    fin_cases hb <;>
      exact colD_strat_bbands_other sq df 20 2 _ (by decide) (by decide) (by decide)
        (by decide) (by decide)
  · cases hf
    refine ⟨?_, nrows_strat_breakout df 20⟩
    fin_cases hb <;>
      exact colD_strat_breakout_other df 20 _ (by decide) (by decide) (by decide)
  · cases hf
    refine ⟨?_, nrows_strat_vwap df⟩
    fin_cases hb <;>
      exact colD_strat_vwap_other df _ (by decide) (by decide) (by decide) (by decide)
  · cases hf
    refine ⟨?_, nrows_strat_momentum df 10⟩
    fin_cases hb <;> exact colD_strat_momentum_other df 10 _ (by decide) (by decide)
  · simp at hf

/-- Witness for the claim C10 theorem: the VWAP registry entry on the
concrete table `dfCv` leaves the close column untouched. -/
theorem strategies_preserve_base_columns_witness :
    (strat_vwap dfCv).colD "close" = dfCv.colD "close" ∧
    (strat_vwap dfCv).nrows = dfCv.nrows :=
  strategies_preserve_base_columns (fun q => q) "VWAP" strat_vwap dfCv rfl "close"
    (by decide)

/-! RSI bounds: the gain and loss means are nonnegative wherever defined,
so rs is nonnegative or infinite and rsi lies in the unit interval scaled
to 100. -/

theorem list_sum_nonpos : ∀ {l : List ℚ}, (∀ x ∈ l, x ≤ 0) → l.sum ≤ 0
  | [], _ => le_refl 0
  | b :: t, h => by
    rw [List.sum_cons]
    have hb := h b (List.mem_cons_self b t)
    have ht := list_sum_nonpos fun x hx => h x (List.mem_cons_of_mem b hx)
    linarith

theorem gainSeries_nonneg (close : List Cell) (n i : ℕ) (g : ℚ)
    (hg : (gainSeries close n).getD i none = some g) : 0 ≤ g := by
  rw [show gainSeries close n = rollingApply (fun l => some (l.sum / (l.length : ℚ))) n
      ((diffSeries 1 close).map (Option.map fun d => max d 0)) from rfl] at hg
  rcases rolling_getD_cases (fun l => some (l.sum / (l.length : ℚ))) n
      ((diffSeries 1 close).map (Option.map fun d => max d 0)) i with h | hcase
  · rw [h] at hg; cases hg
  · obtain ⟨vals, ha, _, _, _, hval⟩ := hcase
    rw [hval] at hg
    cases hg
    have hmem : ∀ x ∈ vals, 0 ≤ x := by
      intro x hx
      have hsx : some x ∈ windowAt ((diffSeries 1 close).map (Option.map fun d => max d 0))
          n i := by
        rw [allSome_eq_some ha]
        exact List.mem_map.mpr ⟨x, hx, rfl⟩
      have hsrc := (windowAt_sublist _ n i).subset hsx
      rw [List.mem_map] at hsrc
      obtain ⟨c, _, hc⟩ := hsrc
      cases c with
      | none => cases hc
      | some d =>
        have : max d 0 = x := by simpa using hc
        rw [← this]
        exact le_max_right d 0
    exact div_nonneg (List.sum_nonneg hmem) (Nat.cast_nonneg vals.length)

theorem lossSeries_nonneg (close : List Cell) (n i : ℕ) (l : ℚ)
    (hl : (lossSeries close n).getD i none = some l) : 0 ≤ l := by
  rw [lossSeries] at hl
  by_cases hi : i < (rollingMean n ((diffSeries 1 close).map
      (Option.map fun d => min d 0))).length
  · rw [getD_map' (Option.map fun m => -m) _ i none none hi] at hl
    cases hm : (rollingMean n ((diffSeries 1 close).map
        (Option.map fun d => min d 0))).getD i none with
    | none => rw [hm] at hl; cases hl
    | some m =>
      rw [hm] at hl
      have hlm : l = -m := by simpa using hl.symm
      have hm0 : m ≤ 0 := by
        rw [show rollingMean n ((diffSeries 1 close).map (Option.map fun d => min d 0)) =
            rollingApply (fun l2 => some (l2.sum / (l2.length : ℚ))) n
            ((diffSeries 1 close).map (Option.map fun d => min d 0)) from rfl] at hm
        rcases rolling_getD_cases (fun l2 => some (l2.sum / (l2.length : ℚ))) n
            ((diffSeries 1 close).map (Option.map fun d => min d 0)) i with h | hcase
        · rw [h] at hm; cases hm
        · obtain ⟨vals, ha, _, _, _, hval⟩ := hcase
          rw [hval] at hm
          cases hm
          have hmem : ∀ x ∈ vals, x ≤ 0 := by
            intro x hx
            have hsx : some x ∈ windowAt ((diffSeries 1 close).map
                (Option.map fun d => min d 0)) n i := by
              rw [allSome_eq_some ha]
              exact List.mem_map.mpr ⟨x, hx, rfl⟩
            have hsrc := (windowAt_sublist _ n i).subset hsx
            rw [List.mem_map] at hsrc
            obtain ⟨c, _, hc⟩ := hsrc
            cases c with
            | none => cases hc
            | some d =>
              have : min d 0 = x := by simpa using hc
              rw [← this]
              exact min_le_right d 0
          exact div_nonpos_of_nonpos_of_nonneg (list_sum_nonpos hmem)
            (Nat.cast_nonneg vals.length)
      rw [hlm]
      linarith
  · rw [getD_of_len_le _ _ _ (by rw [List.length_map]; exact le_of_not_lt hi)] at hl
    cases hl

/-- Every entry of the rsi series is NaN or a finite value in `[0, 100]`;
in particular the infinities that IEEE division could produce never occur,
because gain and loss are nonnegative wherever defined. -/
theorem rsiSeries_cases (close : List Cell) (n : ℕ) (d : DivVal)
    (hd : d ∈ rsiSeries close n) :
    d = .nan ∨ ∃ q : ℚ, d = .fin q ∧ 0 ≤ q ∧ q ≤ 100 := by
  rw [rsiSeries, List.mem_map] at hd
  obtain ⟨r, hr, hdr⟩ := hd
  subst hdr
  rw [rsSeries, List.mem_map] at hr
  obtain ⟨i, _, hri⟩ := hr
  subst hri
  cases hgval : (gainSeries close n).getD i none with
  | none => left; rw [fdiv_none_left]; rfl
  | some g =>
    cases hlval : (lossSeries close n).getD i none with
    | none => left; rw [fdiv_none_right]; rfl
    | some l =>
      have hg0 := gainSeries_nonneg close n i g hgval
      have hl0 := lossSeries_nonneg close n i l hlval
      rw [show fdiv (some g) (some l) = (if l = 0 then
          if 0 < g then .posInf else if g < 0 then .negInf else .nan
        else .fin (g / l)) from rfl]
      by_cases hl : l = 0
      · rw [if_pos hl]
        by_cases hgpos : 0 < g
        · rw [if_pos hgpos]
          right
          exact ⟨100, rfl, by norm_num, by norm_num⟩
        · rw [if_neg hgpos, if_neg (by linarith)]
          left; rfl
      · rw [if_neg hl]
        have hlpos : 0 < l := lt_of_le_of_ne hl0 (Ne.symm hl)
        have hq0 : 0 ≤ g / l := div_nonneg hg0 (le_of_lt hlpos)
        right
        rw [show rsiOfRs (.fin (g / l)) = (if 1 + g / l = 0 then .negInf
            else .fin (100 - 100 / (1 + g / l))) from rfl]
        rw [if_neg (by linarith)]
        refine ⟨100 - 100 / (1 + g / l), rfl, ?_, ?_⟩
        · have : 100 / (1 + g / l) ≤ 100 :=
            div_le_self (by norm_num) (by linarith)
          linarith
        · have : 0 < 100 / (1 + g / l) := div_pos (by norm_num) (by linarith)
          linarith

/-- Claim C6: for a close series of finite (non-NaN) values, every defined
value in the RSI strategy's rsi column lies in `[0, 100]`; the signal is
+1 only where rsi < 30 and -1 only where rsi > 70, and no row can satisfy
both threshold conditions at once. -/
theorem strat_rsi_bounds (df : Table) (n : ℕ)
    (hfin : ∀ v ∈ df.colD "close", ∃ q : ℚ, v = some q) :
    (∀ v ∈ (strat_rsi df n).colD "rsi",
      v = none ∨ ∃ q : ℚ, v = some q ∧ 0 ≤ q ∧ q ≤ 100) ∧
    ∀ i, i < df.nrows →
      (((strat_rsi df n).colD "signal").getD i none = some 1 →
        ∃ q : ℚ, ((strat_rsi df n).colD "rsi").getD i none = some q ∧ q < 30) ∧
      (((strat_rsi df n).colD "signal").getD i none = some (-1) →
        ∃ q : ℚ, ((strat_rsi df n).colD "rsi").getD i none = some q ∧ 70 < q) ∧
      ¬ ∃ q : ℚ, ((strat_rsi df n).colD "rsi").getD i none = some q ∧
        q < 30 ∧ 70 < q := by
  have hrsicol : (strat_rsi df n).colD "rsi" = (rsiSeries (df.colD "close") n).map dToCell := by
    simp only [strat_rsi]
    rw [Table.colD_setCol_ne _ _ _ _ (by decide), Table.colD_setCol_ne _ _ _ _ (by decide),
      Table.colD_setCol_ne _ _ _ _ (by decide), Table.colD_setCol_self]
  constructor
  · intro v hv
    rw [hrsicol, List.mem_map] at hv
    obtain ⟨d, hd, hvd⟩ := hv
    subst hvd
    rcases rsiSeries_cases (df.colD "close") n d hd with rfl | ⟨q, rfl, hq1, hq2⟩
    · left; rfl
    · right; exact ⟨q, rfl, hq1, hq2⟩
  · intro i hi
    rw [strat_rsi_signal_shape, chain_getD _ _ _ i hi, hrsicol]
    have hcases := rsiSeries_cases (df.colD "close") n
    revert hcases
    generalize rsiSeries (df.colD "close") n = R
    intro hcases
    by_cases hlen : i < R.length
    · have hm1 : (R.map fun d => dLtC d 30).getD i false =
          dLtC (R.getD i .nan) 30 :=
        getD_map' _ _ i .nan false hlen
      have hm2 : (R.map fun d => dGtC d 70).getD i false =
          dGtC (R.getD i .nan) 70 :=
        getD_map' _ _ i .nan false hlen
      have hstore : (R.map dToCell).getD i none =
          dToCell (R.getD i .nan) :=
        getD_map' _ _ i .nan none hlen
      rcases hcases _ (getD_mem R i .nan hlen) with hnan | ⟨q, hfin2, hq1, hq2⟩
      · rw [hm1, hm2, hnan, hstore, hnan]
        refine ⟨?_, ?_, ?_⟩
        · intro h
          rw [show dLtC .nan 30 = false from rfl, show dGtC .nan 70 = false from rfl] at h
          simp at h
        · intro h
          rw [show dLtC .nan 30 = false from rfl, show dGtC .nan 70 = false from rfl] at h
          norm_num at h
        · rintro ⟨q, hq, _⟩
          cases hq
      · rw [hm1, hm2, hfin2, hstore, hfin2]
        rw [show dLtC (.fin q) 30 = decide (q < 30) from rfl,
          show dGtC (.fin q) 70 = decide (70 < q) from rfl]
        refine ⟨?_, ?_, ?_⟩
        · intro h
          refine ⟨q, rfl, ?_⟩
          by_cases h70 : 70 < q
          · rw [decide_eq_true h70] at h
            norm_num at h
          · rw [decide_eq_false h70] at h
            by_cases h30 : q < 30
            · exact h30
            · rw [decide_eq_false h30] at h
              norm_num at h
        · intro h
          refine ⟨q, rfl, ?_⟩
          by_cases h70 : 70 < q
          · exact h70
          · rw [decide_eq_false h70] at h
            by_cases h30 : q < 30
            · rw [decide_eq_true h30] at h
              norm_num at h
            · rw [decide_eq_false h30] at h
              norm_num at h
        · rintro ⟨q2, hq2eq, h30, h70⟩
          cases hq2eq
          linarith
    · have hfalse1 : (R.map fun d => dLtC d 30).getD i false = false :=
        getD_of_len_le _ _ _ (by rw [List.length_map]; exact le_of_not_lt hlen)
      have hfalse2 : (R.map fun d => dGtC d 70).getD i false = false :=
        getD_of_len_le _ _ _ (by rw [List.length_map]; exact le_of_not_lt hlen)
      have hstore : (R.map dToCell).getD i none = none :=
        getD_of_len_le _ _ _ (by rw [List.length_map]; exact le_of_not_lt hlen)
      rw [hfalse1, hfalse2, hstore]
      refine ⟨?_, ?_, ?_⟩
      · intro h; simp at h
      · intro h; norm_num at h
      · rintro ⟨q, hq, _⟩
        cases hq

/-- Witness for the claim C6 theorem at the concrete table `dfCv` with
period 1 (each hypothesis discharged by direct evaluation). -/
theorem strat_rsi_bounds_witness :
    (∀ v ∈ (strat_rsi dfCv 1).colD "rsi",
      v = none ∨ ∃ q : ℚ, v = some q ∧ 0 ≤ q ∧ q ≤ 100) ∧
    ∀ i, i < dfCv.nrows →
      (((strat_rsi dfCv 1).colD "signal").getD i none = some 1 →
        ∃ q : ℚ, ((strat_rsi dfCv 1).colD "rsi").getD i none = some q ∧ q < 30) ∧
      (((strat_rsi dfCv 1).colD "signal").getD i none = some (-1) →
        ∃ q : ℚ, ((strat_rsi dfCv 1).colD "rsi").getD i none = some q ∧ 70 < q) ∧
      ¬ ∃ q : ℚ, ((strat_rsi dfCv 1).colD "rsi").getD i none = some q ∧
        q < 30 ∧ 70 < q :=
  strat_rsi_bounds dfCv 1 (by
    intro v hv
    rw [show dfCv.colD "close" = [some 1, some 2, some 2] from by
      with_unfolding_all rfl] at hv
    fin_cases hv
    · exact ⟨1, rfl⟩
    · exact ⟨2, rfl⟩
    · exact ⟨2, rfl⟩)

/-! Normalization: timestamp failure, detector transfer across column
assignments, and the success characterization. -/

/-- Claim C3: for every RawSnapshot whose processed columns (flattened,
lower-cased data names plus the reset index column) contain none of the
names datetime, date or index (case-insensitively), normalization fails —
the timestamp loop leaves the column variable unset and the subsequent
subscript raises (KeyError on the None key) — and no table is produced. -/
theorem normalize_no_timestamp_fails (raw : RawSnapshot)
    (h : ∀ name ∈ procNames raw, isTsName name = false) :
    normalize_df raw = .error .keyErrorNone := by
  have hfind : (procCols raw).find? (fun p => isTsName p.1) = none := by
    rw [List.find?_eq_none]
    intro p hp
    simp [h p.1 (List.mem_map.mpr ⟨p, hp, rfl⟩)]
  simp only [normalize_df, hfind]

/-- Concrete snapshot whose columns carry no timestamp-like name at all:
the index is named Idx and the single data column Foo. -/
def rawNoTs : RawSnapshot := ⟨1, "Idx", [some 0], [(["Foo"], [some 1])]⟩

/-- Witness for the claim C3 theorem at the concrete snapshot `rawNoTs`. -/
theorem normalize_no_timestamp_fails_witness :
    normalize_df rawNoTs = .error .keyErrorNone :=
  normalize_no_timestamp_fails rawNoTs (by
    intro name hn
    rw [show procNames rawNoTs = ["Idx", "foo"] from by with_unfolding_all rfl] at hn
    fin_cases hn
    · with_unfolding_all rfl
    · with_unfolding_all rfl)

/-- The shared shape of the two-phase column detectors: first name
matching the primary predicate, else first name matching the fallback
predicate. -/
def twoPhase (p1 p2 : String → Bool) (cols : List (String × List Cell)) : Option String :=
  match cols.find? (fun p => p1 p.1) with
  | some p => some p.1
  | none => (cols.find? (fun p => p2 p.1)).map (·.1)

theorem detect_close_column_eq (df : Table) :
    detect_close_column df =
      twoPhase (fun s => s.startsWith "close") (fun s => containsStr s.toLower "close")
        df.cols := rfl

theorem detect_open_column_eq (df : Table) :
    detect_open_column df =
      twoPhase (fun s => s.startsWith "open") (fun s => containsStr s.toLower "open")
        df.cols := rfl

theorem detect_high_column_eq (df : Table) :
    detect_high_column df =
      twoPhase (fun s => s.startsWith "high") (fun s => containsStr s.toLower "high")
        df.cols := rfl

theorem detect_low_column_eq (df : Table) :
    detect_low_column df =
      twoPhase (fun s => s.startsWith "low") (fun s => containsStr s.toLower "low")
        df.cols := rfl

theorem twoPhase_eq_some {p1 p2 : String → Bool} {cols : List (String × List Cell)}
    {c : String} (h : twoPhase p1 p2 cols = some c) :
    ∃ p ∈ cols, p1 p.1 = true ∨ p2 p.1 = true := by
  rw [twoPhase] at h
  cases hsw : cols.find? (fun p => p1 p.1) with
  | some p =>
    exact ⟨p, List.mem_of_find?_eq_some hsw, Or.inl (by simpa using List.find?_some hsw)⟩
  | none =>
    rw [hsw] at h
    cases hct : cols.find? (fun p => p2 p.1) with
    | none => rw [hct] at h; cases h
    | some p =>
      exact ⟨p, List.mem_of_find?_eq_some hct, Or.inr (by simpa using List.find?_some hct)⟩

theorem twoPhase_isSome {p1 p2 : String → Bool} {cols : List (String × List Cell)}
    (h : ∃ p ∈ cols, p1 p.1 = true ∨ p2 p.1 = true) :
    ∃ c, twoPhase p1 p2 cols = some c := by
  rw [twoPhase]
  cases hsw : cols.find? (fun p => p1 p.1) with
  | some p => exact ⟨p.1, rfl⟩
  | none =>
    obtain ⟨p, hp, hpred⟩ := h
    rcases hpred with h1 | h2
    · exact absurd h1 (by simpa using List.find?_eq_none.mp hsw p hp)
    · cases hct : cols.find? (fun p => p2 p.1) with
      | none => exact absurd h2 (by simpa using List.find?_eq_none.mp hct p hp)
      | some q => exact ⟨q.1, rfl⟩

theorem twoPhase_setCol (df : Table) (nm : String) (vs : List Cell)
    (p1 p2 : String → Bool) (h1 : p1 nm = false) (h2 : p2 nm = false) :
    twoPhase p1 p2 (df.setCol nm vs).cols = twoPhase p1 p2 df.cols := by
  rw [twoPhase, twoPhase, Table.find?_setCol df nm vs p1 h1,
    Table.find?_setCol df nm vs p2 h2]

theorem detect_volume_setCol (df : Table) (nm : String) (vs : List Cell)
    (h : containsStr nm.toLower "vol" = false) :
    detect_volume_column (df.setCol nm vs) = detect_volume_column df := by
  rw [detect_volume_column, detect_volume_column,
    Table.find?_setCol df nm vs (fun s => containsStr s.toLower "vol") h]

theorem twoPhase_eq_none {p1 p2 : String → Bool} {cols : List (String × List Cell)}
    (h : ∀ p ∈ cols, p1 p.1 = false ∧ p2 p.1 = false) : twoPhase p1 p2 cols = none := by
  rw [twoPhase]
  have h1 : cols.find? (fun p => p1 p.1) = none :=
    List.find?_eq_none.mpr fun p hp => by simp [(h p hp).1]
  have h2 : cols.find? (fun p => p2 p.1) = none :=
    List.find?_eq_none.mpr fun p hp => by simp [(h p hp).2]
  rw [h1, h2]
  rfl

theorem names_setCol_subset (df : Table) (nm : String) (vs : List Cell) :
    ∀ s ∈ (df.setCol nm vs).cols.map Prod.fst, s ∈ df.cols.map Prod.fst ∨ s = nm := by
  intro s hs
  rw [Table.setCol] at hs
  split at hs
  · rw [List.map_map, List.mem_map] at hs
    obtain ⟨q, hq, hsq⟩ := hs
    by_cases hqnm : (q.1 == nm) = true
    · right
      have hq1 : q.1 = nm := eq_of_beq hqnm
      rw [← hsq]
      simp [Function.comp_apply, hq1]
    · left
      rw [← hsq]
      simp only [Function.comp_apply, hqnm]
      rw [if_neg (by simp [hqnm])]
      exact List.mem_map.mpr ⟨q, hq, rfl⟩
  · rw [List.map_append, List.mem_append] at hs
    rcases hs with h | h
    · left; exact h
    · right; simpa using h

/-- Claim C2 counterexample: a snapshot with a timestamp, a close column
and a volume column but no open-like column does not normalize to a table
with `open == close`; `detect_open_column` returns None and the subscript
`df[None]` raises KeyError, so normalization fails outright. -/
def rawNoOpen : RawSnapshot :=
  ⟨1, "Date", [some 0], [(["Close"], [some 1]), (["Volume"], [some 2])]⟩

/-- Claim C2 is false at `rawNoOpen`: normalization raises instead of
producing a table whose open column equals its close column. -/
theorem normalize_missing_open_raises :
    normalize_df rawNoOpen = .error .keyErrorNone := by
  with_unfolding_all rfl

/-- Claim C2 (amended): for every RawSnapshot with a resolvable timestamp
column, a close-like column, and no open-like column, normalization fails
with the KeyError raised by the unguarded `df[None]` subscript (because
`detect_open_column` returns None), and no normalized table is produced;
there is no defaulting of open to close in the code.  The `Nodup`
hypothesis keeps the model within pandas' columnar behavior (duplicate
labels make `df[name]` return a frame instead of a column). -/
theorem normalize_no_open_fails (raw : RawSnapshot)
    (hnodup : (procNames raw).Nodup)
    (hts : ∃ p ∈ procCols raw, isTsName p.1 = true)
    (hclose : ∃ p ∈ procCols raw, p.1.startsWith "close" = true ∨
      containsStr p.1.toLower "close" = true)
    (hopen : ∀ p ∈ procCols raw, p.1.startsWith "open" = false ∧
      containsStr p.1.toLower "open" = false) :
    normalize_df raw = .error .keyErrorNone := by
  obtain ⟨ts, hts2⟩ : ∃ ts, (procCols raw).find? (fun p => isTsName p.1) = some ts := by
    rw [← Option.isSome_iff_exists, List.find?_isSome]
    exact hts
  have hdc : ∃ c, detect_close_column
      ((Table.mk raw.nrows (procCols raw)).setCol "Datetime" ts.2) = some c := by
    rw [detect_close_column_eq,
      twoPhase_setCol _ _ _ _ _ (by with_unfolding_all rfl) (by with_unfolding_all rfl)]
    exact twoPhase_isSome hclose
  obtain ⟨c, hdc⟩ := hdc
  have hnames2 : ∀ s ∈ (((Table.mk raw.nrows (procCols raw)).setCol "Datetime" ts.2).setCol
      "close" (((Table.mk raw.nrows (procCols raw)).setCol "Datetime" ts.2).colD c)).cols.map
      Prod.fst, s ∈ procNames raw ∨ s = "Datetime" ∨ s = "close" := by
    intro s hs
    rcases names_setCol_subset _ _ _ s hs with h | h
    · rcases names_setCol_subset _ _ _ s h with h0 | h0
      · left; exact h0
      · right; left; exact h0
    · right; right; exact h
  have hdo : detect_open_column (((Table.mk raw.nrows (procCols raw)).setCol "Datetime"
      ts.2).setCol "close"
      (((Table.mk raw.nrows (procCols raw)).setCol "Datetime" ts.2).colD c)) = none := by
    rw [detect_open_column_eq]
    apply twoPhase_eq_none
    intro p hp
    rcases hnames2 p.1 (List.mem_map.mpr ⟨p, hp, rfl⟩) with h | h | h
    · rw [procNames, List.mem_map] at h
      obtain ⟨q, hq, hqp⟩ := h
      rw [← hqp]
      exact hopen q hq
    · rw [h]
      exact ⟨by with_unfolding_all rfl, by with_unfolding_all rfl⟩
    · rw [h]
      exact ⟨by with_unfolding_all rfl, by with_unfolding_all rfl⟩
  simp only [normalize_df, hts2, hdc, hdo]

/-- Witness for the amended claim C2 theorem at the concrete snapshot
`rawNoOpen`. -/
theorem normalize_no_open_fails_witness :
    normalize_df rawNoOpen = .error .keyErrorNone :=
  normalize_no_open_fails rawNoOpen
    (by rw [show procNames rawNoOpen = ["Date", "close", "volume"] from by
        with_unfolding_all rfl]
        decide)
    ⟨("Date", [some 0]), by
      rw [show procCols rawNoOpen = [("Date", [some 0]), ("close", [some 1]),
        ("volume", [some 2])] from by with_unfolding_all rfl]
      exact List.mem_cons_self _ _, by with_unfolding_all rfl⟩
    ⟨("close", [some 1]), by
      rw [show procCols rawNoOpen = [("Date", [some 0]), ("close", [some 1]),
        ("volume", [some 2])] from by with_unfolding_all rfl]
      exact List.mem_cons_of_mem _ (List.mem_cons_self _ _), Or.inl (by
        with_unfolding_all rfl)⟩
    (by
      intro p hp
      rw [show procCols rawNoOpen = [("Date", [some 0]), ("close", [some 1]),
        ("volume", [some 2])] from by with_unfolding_all rfl] at hp
      fin_cases hp
      · exact ⟨by with_unfolding_all rfl, by with_unfolding_all rfl⟩
      · exact ⟨by with_unfolding_all rfl, by with_unfolding_all rfl⟩
      · exact ⟨by with_unfolding_all rfl, by with_unfolding_all rfl⟩)

theorem detect_volume_some_of {df : Table}
    (h : ∃ p ∈ df.cols, containsStr p.1.toLower "vol" = true) :
    ∃ v, detect_volume_column df = some v := by
  rw [detect_volume_column]
  cases hf : df.cols.find? (fun p => containsStr p.1.toLower "vol") with
  | none =>
    obtain ⟨p, hp, hpred⟩ := h
    exact absurd hpred (by simpa using List.find?_eq_none.mp hf p hp)
  | some q => exact ⟨q.1, rfl⟩

theorem detect_volume_eq_some {df : Table} {v : String}
    (h : detect_volume_column df = some v) :
    ∃ p ∈ df.cols, containsStr p.1.toLower "vol" = true := by
  rw [detect_volume_column] at h
  cases hf : df.cols.find? (fun p => containsStr p.1.toLower "vol") with
  | none => rw [hf] at h; cases h
  | some q =>
    exact ⟨q, List.mem_of_find?_eq_some hf, by simpa using List.find?_some hf⟩

/-- Claim C4 counterexample input: timestamp, close, open, low and volume
columns all present, but no high-like column. -/
def rawNoHigh : RawSnapshot :=
  ⟨1, "Date", [some 0],
    [(["Close"], [some 1]), (["Open"], [some 2]), (["Low"], [some 3]),
     (["Volume"], [some 4])]⟩

/-- Claim C4 is false at `rawNoHigh`: close-like and volume-like columns
are both present, yet normalization fails (KeyError from the unguarded
`df[None]` subscript after `detect_high_column` returns None), so the
absence of a high column does cause failure. -/
theorem normalize_missing_high_raises :
    normalize_df rawNoHigh = .error .keyErrorNone := by
  with_unfolding_all rfl

/-- Claim C4 (amended): normalization succeeds exactly when all six
lookups succeed on the processed columns: a timestamp-named column
(datetime/date/index), a close-like column, an open-like column, a
high-like column, a low-like column, and a column containing "vol".
Absence of close or volume raises the descriptive ValueError; absence of
the timestamp, open, high or low column raises KeyError; in every failure
case no table is produced. -/
theorem normalize_ok_iff (raw : RawSnapshot) (hnodup : (procNames raw).Nodup) :
    (∃ t, normalize_df raw = .ok t) ↔
      ((∃ p ∈ procCols raw, isTsName p.1 = true) ∧
       (∃ p ∈ procCols raw, p.1.startsWith "close" = true ∨
         containsStr p.1.toLower "close" = true) ∧
       (∃ p ∈ procCols raw, p.1.startsWith "open" = true ∨
         containsStr p.1.toLower "open" = true) ∧
       (∃ p ∈ procCols raw, p.1.startsWith "high" = true ∨
         containsStr p.1.toLower "high" = true) ∧
       (∃ p ∈ procCols raw, p.1.startsWith "low" = true ∨
         containsStr p.1.toLower "low" = true) ∧
       (∃ p ∈ procCols raw, containsStr p.1.toLower "vol" = true)) := by
  constructor
  · rintro ⟨t, ht⟩
    simp only [normalize_df] at ht
    split at ht
    · exact Except.noConfusion ht
    · rename_i ts heq1
      split at ht
      · exact Except.noConfusion ht
      · rename_i c heq2
        split at ht
        · exact Except.noConfusion ht
        · rename_i o heq3
          split at ht
          · exact Except.noConfusion ht
          · rename_i hc heq4
            split at ht
            · exact Except.noConfusion ht
            · rename_i lc heq5
              split at ht
              · exact Except.noConfusion ht
              · rename_i vc heq6
                refine ⟨⟨ts, List.mem_of_find?_eq_some heq1,
                  by simpa using List.find?_some heq1⟩, ?_, ?_, ?_, ?_, ?_⟩
                · rw [detect_close_column_eq,
                    twoPhase_setCol _ _ _ _ _ (by with_unfolding_all rfl)
                      (by with_unfolding_all rfl)] at heq2
                  exact twoPhase_eq_some heq2
                · rw [detect_open_column_eq,
                    twoPhase_setCol _ _ _ _ _ (by with_unfolding_all rfl)
                      (by with_unfolding_all rfl),
                    twoPhase_setCol _ _ _ _ _ (by with_unfolding_all rfl)
                      (by with_unfolding_all rfl)] at heq3
                  exact twoPhase_eq_some heq3
                · rw [detect_high_column_eq,
                    twoPhase_setCol _ _ _ _ _ (by with_unfolding_all rfl)
                      (by with_unfolding_all rfl),
                    twoPhase_setCol _ _ _ _ _ (by with_unfolding_all rfl)
                      (by with_unfolding_all rfl),
                    twoPhase_setCol _ _ _ _ _ (by with_unfolding_all rfl)
                      (by with_unfolding_all rfl)] at heq4
                  exact twoPhase_eq_some heq4
                · rw [detect_low_column_eq,
                    twoPhase_setCol _ _ _ _ _ (by with_unfolding_all rfl)
                      (by with_unfolding_all rfl),
                    twoPhase_setCol _ _ _ _ _ (by with_unfolding_all rfl)
                      (by with_unfolding_all rfl),
                    twoPhase_setCol _ _ _ _ _ (by with_unfolding_all rfl)
                      (by with_unfolding_all rfl),
                    twoPhase_setCol _ _ _ _ _ (by with_unfolding_all rfl)
                      (by with_unfolding_all rfl)] at heq5
                  exact twoPhase_eq_some heq5
                · rw [detect_volume_setCol _ _ _ (by with_unfolding_all rfl),
                    detect_volume_setCol _ _ _ (by with_unfolding_all rfl),
                    detect_volume_setCol _ _ _ (by with_unfolding_all rfl),
                    detect_volume_setCol _ _ _ (by with_unfolding_all rfl),
                    detect_volume_setCol _ _ _ (by with_unfolding_all rfl)] at heq6
                  exact detect_volume_eq_some heq6
  · rintro ⟨hts, hclose, hopen, hhigh, hlow, hvol⟩
    obtain ⟨ts, hts2⟩ : ∃ ts, (procCols raw).find? (fun p => isTsName p.1) = some ts := by
      rw [← Option.isSome_iff_exists, List.find?_isSome]
      exact hts
    simp only [normalize_df, hts2]
    obtain ⟨c, hdc⟩ : ∃ c, detect_close_column
        ((Table.mk raw.nrows (procCols raw)).setCol "Datetime" ts.2) = some c := by
      rw [detect_close_column_eq,
        twoPhase_setCol _ _ _ _ _ (by with_unfolding_all rfl) (by with_unfolding_all rfl)]
      exact twoPhase_isSome hclose
    simp only [hdc]
    obtain ⟨o, hdo⟩ : ∃ o, detect_open_column
        (((Table.mk raw.nrows (procCols raw)).setCol "Datetime" ts.2).setCol "close"
          (((Table.mk raw.nrows (procCols raw)).setCol "Datetime" ts.2).colD c)) =
        some o := by
      rw [detect_open_column_eq,
        twoPhase_setCol _ _ _ _ _ (by with_unfolding_all rfl) (by with_unfolding_all rfl),
        twoPhase_setCol _ _ _ _ _ (by with_unfolding_all rfl) (by with_unfolding_all rfl)]
      exact twoPhase_isSome hopen
    simp only [hdo]
    generalize hD3 : ((((Table.mk raw.nrows (procCols raw)).setCol "Datetime"
        ts.2).setCol "close" _).setCol "open" _) = d3
    obtain ⟨hc, hdh⟩ : ∃ hc, detect_high_column d3 = some hc := by
      rw [← hD3, detect_high_column_eq,
        twoPhase_setCol _ _ _ _ _ (by with_unfolding_all rfl) (by with_unfolding_all rfl),
        twoPhase_setCol _ _ _ _ _ (by with_unfolding_all rfl) (by with_unfolding_all rfl),
        twoPhase_setCol _ _ _ _ _ (by with_unfolding_all rfl) (by with_unfolding_all rfl)]
      exact twoPhase_isSome hhigh
    simp only [hdh]
    generalize hD4 : d3.setCol "high" (d3.colD hc) = d4
    obtain ⟨lc, hdl⟩ : ∃ lc, detect_low_column d4 = some lc := by
      rw [← hD4, ← hD3, detect_low_column_eq,
        twoPhase_setCol _ _ _ _ _ (by with_unfolding_all rfl) (by with_unfolding_all rfl),
        twoPhase_setCol _ _ _ _ _ (by with_unfolding_all rfl) (by with_unfolding_all rfl),
        twoPhase_setCol _ _ _ _ _ (by with_unfolding_all rfl) (by with_unfolding_all rfl),
        twoPhase_setCol _ _ _ _ _ (by with_unfolding_all rfl) (by with_unfolding_all rfl)]
      exact twoPhase_isSome hlow
    simp only [hdl]
    generalize hD5 : d4.setCol "low" (d4.colD lc) = d5
    obtain ⟨vc, hdv⟩ : ∃ vc, detect_volume_column d5 = some vc := by
      rw [← hD5, ← hD4, ← hD3]
      rw [detect_volume_setCol _ _ _ (by with_unfolding_all rfl),
        detect_volume_setCol _ _ _ (by with_unfolding_all rfl),
        detect_volume_setCol _ _ _ (by with_unfolding_all rfl),
        detect_volume_setCol _ _ _ (by with_unfolding_all rfl),
        detect_volume_setCol _ _ _ (by with_unfolding_all rfl)]
      exact detect_volume_some_of hvol
    simp only [hdv]
    exact ⟨_, rfl⟩

/-- Witness for the amended claim C4 theorem: the full snapshot `rawFull`
(composite ticker-qualified names) satisfies all six resolution conditions
and normalizes successfully. -/
def rawFull : RawSnapshot :=
  ⟨2, "Date", [some 0, some 1],
    [(["Close", "AAPL"], [some 10, some 11]), (["Open", "AAPL"], [some 9, some 10]),
     (["High", "AAPL"], [some 12, some 13]), (["Low", "AAPL"], [some 8, some 9]),
     (["Volume", "AAPL"], [some 100, some 200])]⟩

/-- Witness for the amended claim C4 theorem at the concrete snapshot
`rawFull`: the backward direction produces a normalized table. -/
theorem normalize_ok_iff_witness : ∃ t, normalize_df rawFull = .ok t :=
  (normalize_ok_iff rawFull (by
    rw [show procNames rawFull = ["Date", "close_aapl", "open_aapl", "high_aapl",
      "low_aapl", "volume_aapl"] from by with_unfolding_all rfl]
    decide)).mpr
    (by
      rw [show procCols rawFull = [("Date", [some 0, some 1]),
        ("close_aapl", [some 10, some 11]), ("open_aapl", [some 9, some 10]),
        ("high_aapl", [some 12, some 13]), ("low_aapl", [some 8, some 9]),
        ("volume_aapl", [some 100, some 200])] from by with_unfolding_all rfl]
      refine ⟨⟨("Date", [some 0, some 1]), by simp, by with_unfolding_all rfl⟩,
        ⟨("close_aapl", [some 10, some 11]), by simp, Or.inl (by with_unfolding_all rfl)⟩,
        ⟨("open_aapl", [some 9, some 10]), by simp, Or.inl (by with_unfolding_all rfl)⟩,
        ⟨("high_aapl", [some 12, some 13]), by simp, Or.inl (by with_unfolding_all rfl)⟩,
        ⟨("low_aapl", [some 8, some 9]), by simp, Or.inl (by with_unfolding_all rfl)⟩,
        ⟨("volume_aapl", [some 100, some 200]), by simp, by with_unfolding_all rfl⟩⟩)

/-! Resolution policy: which source column each canonical field is copied
from. -/

theorem detect_close_resolve (df : Table) :
    detect_close_column df = (resolveStartsContains df.cols "close").map Prod.fst := by
  rw [detect_close_column, resolveStartsContains]
  cases hf : df.cols.find? (fun p => p.1.startsWith "close") <;> rfl

theorem detect_open_resolve (df : Table) :
    detect_open_column df = (resolveStartsContains df.cols "open").map Prod.fst := by
  rw [detect_open_column, resolveStartsContains]
  cases hf : df.cols.find? (fun p => p.1.startsWith "open") <;> rfl

theorem detect_high_resolve (df : Table) :
    detect_high_column df = (resolveStartsContains df.cols "high").map Prod.fst := by
  rw [detect_high_column, resolveStartsContains]
  cases hf : df.cols.find? (fun p => p.1.startsWith "high") <;> rfl

theorem detect_low_resolve (df : Table) :
    detect_low_column df = (resolveStartsContains df.cols "low").map Prod.fst := by
  rw [detect_low_column, resolveStartsContains]
  cases hf : df.cols.find? (fun p => p.1.startsWith "low") <;> rfl

theorem detect_volume_resolve (df : Table) :
    detect_volume_column df = (resolveVol df.cols).map Prod.fst := by
  rw [detect_volume_column, resolveVol]

theorem resolveSC_setCol (df : Table) (nm : String) (vs : List Cell) (field : String)
    (h1 : nm.startsWith field = false) (h2 : containsStr nm.toLower field = false) :
    resolveStartsContains (df.setCol nm vs).cols field =
      resolveStartsContains df.cols field := by
  rw [resolveStartsContains, resolveStartsContains,
    Table.find?_setCol df nm vs (fun s => s.startsWith field) h1,
    Table.find?_setCol df nm vs (fun s => containsStr s.toLower field) h2]

theorem resolveVol_setCol (df : Table) (nm : String) (vs : List Cell)
    (h : containsStr nm.toLower "vol" = false) :
    resolveVol (df.setCol nm vs).cols = resolveVol df.cols := by
  rw [resolveVol, resolveVol,
    Table.find?_setCol df nm vs (fun s => containsStr s.toLower "vol") h]

theorem resolve_some_find {cols : List (String × List Cell)} {field : String}
    {pr : String × List Cell} (h : resolveStartsContains cols field = some pr) :
    cols.find? (fun p => p.1.startsWith field) = some pr ∨
    cols.find? (fun p => containsStr p.1.toLower field) = some pr := by
  rw [resolveStartsContains] at h
  cases hf : cols.find? (fun p => p.1.startsWith field) with
  | some q =>
    left
    rw [hf] at h
    exact h
  | none =>
    right
    rw [hf] at h
    exact h

theorem find?_name_of_find? {cols : List (String × List Cell)}
    {pred : String × List Cell → Bool} {pr : String × List Cell}
    (hf : cols.find? pred = some pr) (hnd : (cols.map Prod.fst).Nodup) :
    cols.find? (fun p => p.1 == pr.1) = some pr := by
  induction cols with
  | nil => cases hf
  | cons hd tl ih =>
    rw [List.find?_cons] at hf
    rw [List.map_cons, List.nodup_cons] at hnd
    cases hpred : pred hd with
    | true =>
      rw [hpred] at hf
      cases hf
      rw [List.find?_cons]
      simp
    | false =>
      rw [hpred] at hf
      have hmem := List.mem_of_find?_eq_some hf
      have hne : (hd.1 == pr.1) = false := by
        rcases hbeq : hd.1 == pr.1 with _ | _
        · rfl
        · exact absurd (List.mem_map.mpr ⟨pr, hmem, (eq_of_beq hbeq).symm⟩) hnd.1
      rw [List.find?_cons]
      simp only [hne]
      exact ih hf hnd.2

theorem colD_of_find? {df : Table} {pred : String × List Cell → Bool}
    {pr : String × List Cell} (hf : df.cols.find? pred = some pr)
    (hnd : (df.cols.map Prod.fst).Nodup) : df.colD pr.1 = pr.2 := by
  rw [Table.colD, find?_name_of_find? hf hnd]

theorem names_setCol_nodup {df : Table} (nm : String) (vs : List Cell)
    (h : (df.cols.map Prod.fst).Nodup) :
    ((df.setCol nm vs).cols.map Prod.fst).Nodup := by
  rw [Table.setCol]
  split
  · rw [List.map_map]
    have heq : df.cols.map (Prod.fst ∘ fun q => if q.1 == nm then (nm, vs) else q) =
        df.cols.map Prod.fst := by
      apply List.map_congr_left
      intro q _
      by_cases hq : (q.1 == nm) = true
      · simp [Function.comp_apply, eq_of_beq hq]
      · simp only [Function.comp_apply]
        rw [if_neg hq]
    rw [heq]
    exact h
  · rename_i hany
    rw [List.map_append]
    refine List.Nodup.append h (by simp) ?_
    intro s hs hs2
    have : s = nm := by simpa using hs2
    subst this
    rw [List.mem_map] at hs
    obtain ⟨q, hq, hqs⟩ := hs
    exact hany (List.any_eq_true.mpr ⟨q, hq, by simp [hqs]⟩)

/-- Claim C7 counterexample input: a snapshot whose columns contain
`Evol` (which contains "vol" but does not start with "volume") before a
literal `Volume` column. -/
def rawVol : RawSnapshot :=
  ⟨1, "Date", [some 0],
    [(["Evol"], [some 5]), (["Volume"], [some 7]), (["Close"], [some 1]),
     (["Open"], [some 2]), (["High"], [some 3]), (["Low"], [some 4])]⟩

/-- Claim C7 is false at `rawVol`: the resolution rule the claim states
(prefer a column starting with the field name "volume") would pick the
`volume` column with data `[7]`, but normalization copies the data `[5]`
of `evol`, the first column merely containing the substring "vol". -/
theorem volume_resolution_ignores_startswith :
    (resolveStartsContains (procCols rawVol) "volume").map Prod.snd =
      some [some 7] ∧
    ((normalize_df rawVol).toOption.map fun t => t.colD "volume") = some [some 5] :=
  ⟨by with_unfolding_all rfl, by with_unfolding_all rfl⟩

/-- Claim C7 (amended): during a successful normalization of a snapshot
with pairwise distinct processed column names, each of close, open, high
and low is copied from the column chosen by the two-phase rule (first
column whose name starts with the field name — the data column names
being already lower-cased — else the first column whose lower-cased name
contains it, scanning left to right), but volume is copied from the first
column whose lower-cased name contains the substring "vol": the volume
detector has no starts-with phase and matches "vol", not "volume". -/
theorem normalize_resolution_policy (raw : RawSnapshot) (t : Table)
    (hnodup : (procNames raw).Nodup) (ht : normalize_df raw = .ok t) :
    (resolveStartsContains (procCols raw) "close").map Prod.snd =
      some (t.colD "close") ∧
    (resolveStartsContains (procCols raw) "open").map Prod.snd =
      some (t.colD "open") ∧
    (resolveStartsContains (procCols raw) "high").map Prod.snd =
      some (t.colD "high") ∧
    (resolveStartsContains (procCols raw) "low").map Prod.snd =
      some (t.colD "low") ∧
    (resolveVol (procCols raw)).map Prod.snd = some (t.colD "volume") := by
  simp only [normalize_df] at ht
  split at ht
  · exact Except.noConfusion ht
  rename_i ts heq1
  split at ht
  · exact Except.noConfusion ht
  rename_i c heq2
  split at ht
  · exact Except.noConfusion ht
  rename_i o heq3
  split at ht
  · exact Except.noConfusion ht
  rename_i hc heq4
  split at ht
  · exact Except.noConfusion ht
  rename_i lc heq5
  split at ht
  · exact Except.noConfusion ht
  rename_i vc heq6
  injection ht with ht
  subst ht
  generalize hD1 : (Table.mk raw.nrows (procCols raw)).setCol "Datetime" ts.2 = d1
    at heq2 heq3 heq4 heq5 heq6 ⊢
  generalize hD2 : d1.setCol "close" (d1.colD c) = d2 at heq3 heq4 heq5 heq6 ⊢
  generalize hD3 : d2.setCol "open" (d2.colD o) = d3 at heq4 heq5 heq6 ⊢
  generalize hD4 : d3.setCol "high" (d3.colD hc) = d4 at heq5 heq6 ⊢
  generalize hD5 : d4.setCol "low" (d4.colD lc) = d5 at heq6 ⊢
  have hnd1 : (d1.cols.map Prod.fst).Nodup := by
    rw [← hD1]
    exact names_setCol_nodup _ _ hnodup
  have hnd2 : (d2.cols.map Prod.fst).Nodup := by
    rw [← hD2]
    exact names_setCol_nodup _ _ hnd1
  have hnd3 : (d3.cols.map Prod.fst).Nodup := by
    rw [← hD3]
    exact names_setCol_nodup _ _ hnd2
  have hnd4 : (d4.cols.map Prod.fst).Nodup := by
    rw [← hD4]
    exact names_setCol_nodup _ _ hnd3
  have hnd5 : (d5.cols.map Prod.fst).Nodup := by
    rw [← hD5]
    exact names_setCol_nodup _ _ hnd4
  refine ⟨?_, ?_, ?_, ?_, ?_⟩
  · rw [detect_close_resolve] at heq2
    obtain ⟨pr, hpr, hprc⟩ := Option.map_eq_some'.mp heq2
    have hdata : d1.colD pr.1 = pr.2 := by
      rcases resolve_some_find hpr with hf | hf
      · exact colD_of_find? hf hnd1
      · exact colD_of_find? hf hnd1
    rw [← hD1, resolveSC_setCol _ _ _ _ (by with_unfolding_all rfl)
      (by with_unfolding_all rfl)] at hpr
    rw [show resolveStartsContains (procCols raw) "close" = some pr from hpr]
    rw [Table.colD_setCol_ne _ _ _ _ (by decide), ← hD5,
      Table.colD_setCol_ne _ _ _ _ (by decide), ← hD4,
      Table.colD_setCol_ne _ _ _ _ (by decide), ← hD3,
      Table.colD_setCol_ne _ _ _ _ (by decide), ← hD2,
      Table.colD_setCol_self, ← hprc, hdata]
    rfl
  · rw [detect_open_resolve] at heq3
    obtain ⟨pr, hpr, hprc⟩ := Option.map_eq_some'.mp heq3
    have hdata : d2.colD pr.1 = pr.2 := by
      rcases resolve_some_find hpr with hf | hf
      · exact colD_of_find? hf hnd2
      · exact colD_of_find? hf hnd2
    rw [← hD2, resolveSC_setCol _ _ _ _ (by with_unfolding_all rfl)
        (by with_unfolding_all rfl),
      ← hD1, resolveSC_setCol _ _ _ _ (by with_unfolding_all rfl)
        (by with_unfolding_all rfl)] at hpr
    rw [show resolveStartsContains (procCols raw) "open" = some pr from hpr]
    rw [Table.colD_setCol_ne _ _ _ _ (by decide), ← hD5,
      Table.colD_setCol_ne _ _ _ _ (by decide), ← hD4,
      Table.colD_setCol_ne _ _ _ _ (by decide), ← hD3,
      Table.colD_setCol_self, ← hprc, hdata]
    rfl
  · rw [detect_high_resolve] at heq4
    obtain ⟨pr, hpr, hprc⟩ := Option.map_eq_some'.mp heq4
    have hdata : d3.colD pr.1 = pr.2 := by
      rcases resolve_some_find hpr with hf | hf
      · exact colD_of_find? hf hnd3
      · exact colD_of_find? hf hnd3
    rw [← hD3, resolveSC_setCol _ _ _ _ (by with_unfolding_all rfl)
        (by with_unfolding_all rfl),
      ← hD2, resolveSC_setCol _ _ _ _ (by with_unfolding_all rfl)
        (by with_unfolding_all rfl),
      ← hD1, resolveSC_setCol _ _ _ _ (by with_unfolding_all rfl)
        (by with_unfolding_all rfl)] at hpr
    rw [show resolveStartsContains (procCols raw) "high" = some pr from hpr]
    rw [Table.colD_setCol_ne _ _ _ _ (by decide), ← hD5,
      Table.colD_setCol_ne _ _ _ _ (by decide), ← hD4,
      Table.colD_setCol_self, ← hprc, hdata]
    rfl
  · rw [detect_low_resolve] at heq5
    obtain ⟨pr, hpr, hprc⟩ := Option.map_eq_some'.mp heq5
    have hdata : d4.colD pr.1 = pr.2 := by
      rcases resolve_some_find hpr with hf | hf
      · exact colD_of_find? hf hnd4
      · exact colD_of_find? hf hnd4
    rw [← hD4, resolveSC_setCol _ _ _ _ (by with_unfolding_all rfl)
        (by with_unfolding_all rfl),
      ← hD3, resolveSC_setCol _ _ _ _ (by with_unfolding_all rfl)
        (by with_unfolding_all rfl),
      ← hD2, resolveSC_setCol _ _ _ _ (by with_unfolding_all rfl)
        (by with_unfolding_all rfl),
      ← hD1, resolveSC_setCol _ _ _ _ (by with_unfolding_all rfl)
        (by with_unfolding_all rfl)] at hpr
    rw [show resolveStartsContains (procCols raw) "low" = some pr from hpr]
    rw [Table.colD_setCol_ne _ _ _ _ (by decide), ← hD5,
      Table.colD_setCol_self, ← hprc, hdata]
    rfl
  · rw [detect_volume_resolve] at heq6
    obtain ⟨pr, hpr, hprc⟩ := Option.map_eq_some'.mp heq6
    have hdata : d5.colD pr.1 = pr.2 := colD_of_find? hpr hnd5
    rw [← hD5, resolveVol_setCol _ _ _ (by with_unfolding_all rfl),
      ← hD4, resolveVol_setCol _ _ _ (by with_unfolding_all rfl),
      ← hD3, resolveVol_setCol _ _ _ (by with_unfolding_all rfl),
      ← hD2, resolveVol_setCol _ _ _ (by with_unfolding_all rfl),
      ← hD1, resolveVol_setCol _ _ _ (by with_unfolding_all rfl)] at hpr
    rw [show resolveVol (procCols raw) = some pr from hpr]
    rw [Table.colD_setCol_self, ← hprc, hdata]
    rfl

/-- The table `normalize_df rawFull` produces: original processed columns,
the parsed Datetime column, and the six canonical columns. -/
def tFull : Table :=
  ⟨2, [("Date", [some 0, some 1]), ("close_aapl", [some 10, some 11]),
    ("open_aapl", [some 9, some 10]), ("high_aapl", [some 12, some 13]),
    ("low_aapl", [some 8, some 9]), ("volume_aapl", [some 100, some 200]),
    ("Datetime", [some 0, some 1]), ("close", [some 10, some 11]),
    ("open", [some 9, some 10]), ("high", [some 12, some 13]),
    ("low", [some 8, some 9]), ("volume", [some 100, some 200])]⟩

/-- Witness for the amended claim C7 theorem at the concrete snapshot
`rawFull` and its normalized table `tFull`. -/
theorem normalize_resolution_policy_witness :
    (resolveStartsContains (procCols rawFull) "close").map Prod.snd =
      some (tFull.colD "close") ∧
    (resolveStartsContains (procCols rawFull) "open").map Prod.snd =
      some (tFull.colD "open") ∧
    (resolveStartsContains (procCols rawFull) "high").map Prod.snd =
      some (tFull.colD "high") ∧
    (resolveStartsContains (procCols rawFull) "low").map Prod.snd =
      some (tFull.colD "low") ∧
    (resolveVol (procCols rawFull)).map Prod.snd = some (tFull.colD "volume") :=
  normalize_resolution_policy rawFull tFull
    (by
      rw [show procNames rawFull = ["Date", "close_aapl", "open_aapl", "high_aapl",
        "low_aapl", "volume_aapl"] from by with_unfolding_all rfl]
      decide)
    (by with_unfolding_all rfl)

end AutoTrade
